import Mathlib

/-!
Verification of the `writefile` package (retailnext/writefile, writefile.go).

The embedding models Go strings as `List Char`, the POSIX filesystem as an
association list from absolute paths to entries, and every filesystem syscall
as a deterministic state transformer that also records an event trace.
Go panics are modelled as a distinguished `Outcome.panicked` result.
Recursive functions carry an explicit fuel argument; fuel exhaustion yields
the distinguished `fuelMsg` panic, and sufficiency of the supplied fuel is
proved (claim C5).
-/

namespace Writefile

/-- A Go string (byte/char sequence). Paths are plain strings in the source. -/
abbrev Path := List Char

/-- `filepath.IsAbs` on unix: `strings.HasPrefix(path, "/")`. -/
def isAbs : Path → Bool
  | [] => false
  | c :: _ => c = '/'

/-- The filesystem root path `"/"`. -/
def root : Path := ['/']

/-- Join path components with `'/'` separators (no cleaning). -/
def joinComps : List Path → Path
  | [] => []
  | [c] => c
  | c :: cs => c ++ '/' :: joinComps cs

/-- Split a string at every `'/'` (like `strings.Split(s, "/")`). -/
def splitSlash : Path → List Path
  | [] => [[]]
  | c :: rest =>
    if c = '/' then [] :: splitSlash rest
    else
      match splitSlash rest with
      | [] => [[c]]
      | p :: ps => (c :: p) :: ps

/-- One element step of Go `path.Clean`: `acc` is the output stack
(reversed); empty and `"."` elements are dropped, `".."` pops the stack
(dropped at the root for rooted paths, kept for relative paths). -/
def cleanPush (r : Bool) (acc : List Path) (c : Path) : List Path :=
  if c = [] ∨ c = ['.'] then acc
  else if c = ['.', '.'] then
    match acc with
    | [] => if r then [] else [['.', '.']]
    | a :: acc' => if a = ['.', '.'] then c :: a :: acc' else acc'
  else c :: acc

/-- The element-processing loop of Go `path.Clean`. -/
def cleanParts (r : Bool) (acc : List Path) : List Path → List Path
  | [] => acc
  | c :: rest => cleanParts r (cleanPush r acc c) rest

/-- Go `path.Clean` (equals `filepath.Clean` on unix): shortest lexically
equivalent path. -/
def clean (p : Path) : Path :=
  if p = [] then ['.']
  else
    let r := isAbs p
    let comps := cleanParts r [] (splitSlash p)
    let body := joinComps comps.reverse
    if r then '/' :: body
    else if body = [] then ['.'] else body

/-- The prefix of `p` up to and including its last `'/'`, or `none` if `p`
contains no slash. -/
def takeToLastSlash : Path → Option Path
  | [] => none
  | c :: rest =>
    match takeToLastSlash rest with
    | some t => some (c :: t)
    | none => if c = '/' then some [c] else none

/-- Go `filepath.Dir` on unix: everything up to the last separator, cleaned;
`"."` when there is no separator. -/
def filepathDir (p : Path) : Path :=
  match takeToLastSlash p with
  | some t => clean t
  | none => ['.']

/-- Drop trailing `'/'` characters. -/
def stripTrailSlashes (p : Path) : Path :=
  (p.reverse.dropWhile (fun c => c = '/')).reverse

/-- The suffix after the last `'/'` (the whole string when there is none). -/
def afterLastSlash (p : Path) : Path :=
  (p.reverse.takeWhile (fun c => c ≠ '/')).reverse

/-- Go `filepath.Base` on unix. -/
def filepathBase (p : Path) : Path :=
  if p = [] then ['.']
  else
    let q := stripTrailSlashes p
    let b := afterLastSlash q
    if b = [] then ['/'] else b

/-- Go `filepath.Join` restricted to two elements: non-empty elements joined
with `'/'`, then cleaned; empty when both are empty. -/
def filepathJoin (a b : Path) : Path :=
  if a = [] ∧ b = [] then []
  else if a = [] then clean b
  else if b = [] then clean a
  else clean (a ++ '/' :: b)

/-- Go `path.Join`; identical to `filepath.Join` on unix. -/
def pathJoin (a b : Path) : Path := filepathJoin a b

/-! ## Filesystem model -/

/-- Go `os.ModeDir` (bit 31 of `os.FileMode`). -/
def modeDir : Nat := 2 ^ 31

/-- Conversion `uint32(x)` applied by the source when comparing ownership. -/
def u32 (n : Nat) : Nat := n % 4294967296

/-- One filesystem object: a directory or a regular file with permission
bits, owner, group, and (for files) content. -/
structure FSEntry where
  isDir : Bool
  perm : Nat
  uid : Nat
  gid : Nat
  content : Path
  deriving DecidableEq

/-- `info.Mode()`: directories report the `ModeDir` bit or-ed with their
permission bits; regular files report permission bits only (type bits are
never set for them). -/
def statMode (e : FSEntry) : Nat := if e.isDir then Nat.lor modeDir e.perm else e.perm % modeDir

/-- The filesystem: an association list from absolute path to entry, plus
the uid/gid that newly created objects receive. -/
structure FS where
  entries : List (Path × FSEntry)
  procUid : Nat
  procGid : Nat
  deriving DecidableEq

def lookupA : List (Path × FSEntry) → Path → Option FSEntry
  | [], _ => none
  | (k, v) :: rest, p => if k = p then some v else lookupA rest p

def eraseA : List (Path × FSEntry) → Path → List (Path × FSEntry)
  | [], _ => []
  | (k, v) :: rest, p => if k = p then eraseA rest p else (k, v) :: eraseA rest p

def FS.lookup (fs : FS) (p : Path) : Option FSEntry := lookupA fs.entries p

def FS.insert (fs : FS) (p : Path) (e : FSEntry) : FS :=
  { fs with entries := (p, e) :: eraseA fs.entries p }

def FS.erase (fs : FS) (p : Path) : FS := { fs with entries := eraseA fs.entries p }

/-- Whether some entry lives strictly below `p` (used by `remove` on
directories). -/
def FS.hasChild (fs : FS) (p : Path) : Bool :=
  fs.entries.any (fun kv => List.isPrefixOf (p ++ ['/']) kv.1)

/-- Recorded filesystem events (one per syscall the source performs). -/
inductive Ev where
  | statEv (p : Path)
  | mkdirEv (p : Path)
  | chmodEv (p : Path) (m : Nat)
  | chownEv (p : Path) (u g : Nat)
  | tempTryEv (d : Path)
  | tempCreateEv (p : Path)
  | opCallEv (p : Path)
  | closeEv (p : Path)
  | removeEv (p : Path)
  | renameEv (a b : Path)
  deriving DecidableEq

/-- Errors returned by the modelled syscalls and by the package itself.
`notExist` is the class recognised by `os.IsNotExist`, `alreadyExists` the
one recognised by `os.IsExist`. `InvalidName` (writefile.go line 275) is the
package's own error type carrying the offending name. -/
inductive GoErr where
  | notExist (p : Path)
  | alreadyExists (p : Path)
  | notDir (p : Path)
  | notEmpty (p : Path)
  | invalidName (name : Path)
  | callbackErr (code : Nat)
  deriving DecidableEq

/-- `os.IsNotExist`. -/
def isNotExistE : GoErr → Bool
  | .notExist _ => true
  | _ => false

/-- `os.IsExist`. -/
def isExistE : GoErr → Bool
  | .alreadyExists _ => true
  | _ => false

/-- Result of a call: normal return value, returned error, or Go panic. -/
inductive Outcome (α : Type) where
  | ok (a : α)
  | err (e : GoErr)
  | panicked (m : String)
  deriving DecidableEq

def dirEmptyMsg : String := "writefile: Directory must not be empty"
def dirNotAbsMsg : String := "writefile: Directory must be absolute"
def wtfMsg : String := "wtf"
def fuelMsg : String := "writefile: model fuel exhausted"
def removePanicMsg : String := "writefile: cleanup remove failed"
def closePanicMsg : String := "writefile: close failed"

/-- Execution state: the filesystem plus the trace of events so far. -/
abbrev St := FS × List Ev

def emit (e : Ev) (s : St) : St := (s.1, s.2 ++ [e])

/-- `os.Stat`: succeeds with the entry when the path exists, otherwise fails
with a not-exist error. -/
def osStat (p : Path) (s : St) : Except GoErr FSEntry × St :=
  let s := emit (.statEv p) s
  match s.1.lookup p with
  | some e => (.ok e, s)
  | none => (.error (.notExist p), s)

/-- `os.Mkdir(p, m)`: fails with an exist error when `p` exists, a not-exist
error when the parent is missing, and a not-a-directory error when the
parent is a file; otherwise creates a directory owned by the process. -/
def osMkdir (p : Path) (m : Nat) (s : St) : Option GoErr × St :=
  let s := emit (.mkdirEv p) s
  match s.1.lookup p with
  | some _ => (some (.alreadyExists p), s)
  | none =>
    match s.1.lookup (filepathDir p) with
    | none => (some (.notExist p), s)
    | some parent =>
      if parent.isDir then
        (none, (s.1.insert p ⟨true, m, s.1.procUid, s.1.procGid, []⟩, s.2))
      else (some (.notDir p), s)

/-- `os.Chmod`. -/
def osChmod (p : Path) (m : Nat) (s : St) : Option GoErr × St :=
  let s := emit (.chmodEv p m) s
  match s.1.lookup p with
  | none => (some (.notExist p), s)
  | some e => (none, (s.1.insert p { e with perm := m }, s.2))

/-- `os.Chown` (the kernel records the low 32 bits, matching the `uint32`
comparisons in the source). -/
def osChown (p : Path) (u g : Nat) (s : St) : Option GoErr × St :=
  let s := emit (.chownEv p u g) s
  match s.1.lookup p with
  | none => (some (.notExist p), s)
  | some e => (none, (s.1.insert p { e with uid := u32 u, gid := u32 g }, s.2))

/-- `os.Remove`: not-exist error for a missing path, not-empty error when
removing a non-empty directory. -/
def osRemove (p : Path) (s : St) : Option GoErr × St :=
  let s := emit (.removeEv p) s
  match s.1.lookup p with
  | none => (some (.notExist p), s)
  | some e =>
    if e.isDir && s.1.hasChild p then (some (.notEmpty p), s)
    else (none, (s.1.erase p, s.2))

/-- `os.Rename(old, new)`: moves the entry; replacing an existing file is
atomic and allowed, an existing directory target or a missing source or
target parent fails. The event is recorded only on success. -/
def osRename (old new : Path) (s : St) : Option GoErr × St :=
  match s.1.lookup old with
  | none => (some (.notExist old), s)
  | some e =>
    match s.1.lookup new with
    | some t =>
      if t.isDir then (some (.notDir new), s)
      else (none, emit (.renameEv old new) ((s.1.erase old).insert new e, s.2))
    | none =>
      match s.1.lookup (filepathDir new) with
      | some parent =>
        if parent.isDir then
          (none, emit (.renameEv old new) ((s.1.erase old).insert new e, s.2))
        else (some (.notDir new), s)
      | none => (some (.notExist new), s)

/-- Split a temp pattern at its last `'*'` (Go `prefixAndSuffix` in
`ioutil.TempFile`); `none` when the pattern has no `'*'`. -/
def splitLastStar : Path → Option (Path × Path)
  | [] => none
  | c :: rest =>
    match splitLastStar rest with
    | some (a, b) => some (c :: a, b)
    | none => if c = '*' then some ([], rest) else none

/-- The unique random part is modelled deterministically: a run of `'x'`
longer than every path currently in the filesystem, so a well-formed pattern
never collides with an existing entry. -/
def freshLen (fs : FS) : Nat :=
  (fs.entries.map (fun kv => kv.1.length)).sum + 1

def tempNameOf (pat : Path) (n : Nat) : Path :=
  match splitLastStar pat with
  | some (pre, suf) => pre ++ List.replicate n 'x' ++ suf
  | none => pat ++ List.replicate n 'x'

/-- `ioutil.TempFile(dir, pattern)`: creates a uniquely named file with mode
`0600` inside `dir`; not-exist error when `dir` is missing, not-a-directory
error when `dir` is a file, exist error when the generated name collides
(only possible for degenerate patterns). -/
def ioutilTempFile (dir pat : Path) (s : St) : Except GoErr Path × St :=
  let s := emit (.tempTryEv dir) s
  match s.1.lookup dir with
  | none => (.error (.notExist dir), s)
  | some d =>
    if d.isDir then
      let p := filepathJoin dir (tempNameOf pat (freshLen s.1))
      match s.1.lookup p with
      | some _ => (.error (.alreadyExists p), s)
      | none =>
        (.ok p,
         emit (.tempCreateEv p)
           (s.1.insert p ⟨false, 0o600, s.1.procUid, s.1.procGid, []⟩, s.2))
    else (.error (.notDir dir), s)

/-- `f.Stat()` on the open temp file handle (identified by its path). -/
def osFstat (p : Path) (s : St) : Except GoErr FSEntry × St :=
  let s := emit (.statEv p) s
  match s.1.lookup p with
  | some e => (.ok e, s)
  | none => (.error (.notExist p), s)

/-- Overwrite the content of the file at `p` (the write callback writing
through its handle). -/
def FS.setContent (fs : FS) (p : Path) (content : Path) : FS :=
  match fs.lookup p with
  | some e => fs.insert p { e with content := content }
  | none => fs

/-! ## The package itself (writefile.go) -/

/-- `writefile.Config` (writefile.go lines 33-44). Modes, uids and gids are
natural numbers; a zero mode selects the default. -/
structure Config where
  Directory : Path
  DirectoryMode : Nat := 0
  DirectoryUID : Nat := 0
  DirectoryGID : Nat := 0
  EnsureDirectoryOwnership : Bool := false
  FileMode : Nat := 0
  FileUID : Nat := 0
  FileGID : Nat := 0
  EnsureFileOwnership : Bool := false
  TempPattern : Path := []
  deriving DecidableEq

def DefaultDirectoryMode : Nat := 0o755
def DefaultFileMode : Nat := 0o644
def DefaultTempPattern : Path := ".temp*~".toList

/-- writefile.go lines 254-259. -/
def Config.getTempPattern (c : Config) : Path :=
  if c.TempPattern ≠ [] then c.TempPattern else DefaultTempPattern

/-- writefile.go lines 261-266. -/
def Config.getFileMode (c : Config) : Nat :=
  if c.FileMode ≠ 0 then c.FileMode else DefaultFileMode

/-- writefile.go lines 268-273. -/
def Config.getDirectoryMode (c : Config) : Nat :=
  if c.DirectoryMode ≠ 0 then c.DirectoryMode else DefaultDirectoryMode

/-- The caller-supplied write operation: the error it returns and the bytes
it writes through the handle before returning. -/
structure WriteOp where
  err : Option GoErr
  content : Path

/-- `Config.parentConfig` (writefile.go lines 141-155): the same
configuration with `Directory` swapped for its parent; panics on an empty or
relative directory and when the parent equals the directory itself. -/
def Config.parentConfig (c : Config) : Except String Config :=
  if c.Directory = [] then .error dirEmptyMsg
  else if isAbs c.Directory = false then .error dirNotAbsMsg
  else
    let pc := { c with Directory := filepathDir c.Directory }
    if pc.Directory = c.Directory then .error wtfMsg else .ok pc

/-- The ownership block shared by lines 121-136: stat the directory and
chown it when the recorded uid/gid differ from the configured ones. -/
def ensureDirOwnership (c : Config) (s : St) : Outcome Unit × St :=
  if c.EnsureDirectoryOwnership then
    match osStat c.Directory s with
    | (.error e, s) => (.err e, s)
    | (.ok info, s) =>
      if info.uid ≠ u32 c.DirectoryUID ∨ info.gid ≠ u32 c.DirectoryGID then
        match osChown c.Directory c.DirectoryUID c.DirectoryGID s with
        | (some e, s) => (.err e, s)
        | (none, s) => (.ok (), s)
      else (.ok (), s)
  else (.ok (), s)

/-- `Config.EnsureDirectoryIfNotExist` (writefile.go lines 94-139), with
explicit fuel for the recursion on the parent directory. -/
def ensureDirIfNotExistAux : Nat → Config → St → Outcome Unit × St
  | 0, _, s => (.panicked fuelMsg, s)
  | Nat.succ fuel, c, s =>
    if c.Directory = [] then (.panicked dirEmptyMsg, s)
    else if isAbs c.Directory = false then (.panicked dirNotAbsMsg, s)
    else if c.Directory = root then (.ok (), s)
    else
      match osStat c.Directory s with
      | (.ok _, s) => (.ok (), s)
      | (.error e, s) =>
        if isNotExistE e = false then (.err e, s)
        else
          match c.parentConfig with
          | .error m => (.panicked m, s)
          | .ok pc =>
            match ensureDirIfNotExistAux fuel pc s with
            | (.ok (), s) =>
              match osMkdir c.Directory c.getDirectoryMode s with
              | (some e, s) =>
                if isExistE e = false then (.err e, s)
                else ensureDirOwnership c s
              | (none, s) => ensureDirOwnership c s
            | (r, s) => (r, s)

/-- `Config.EnsureDirectoryIfNotExist`: the fuel `|Directory| + 1` is
sufficient because each recursive step strictly shortens the directory
(claim C5). -/
def Config.EnsureDirectoryIfNotExist (c : Config) (s : St) : Outcome Unit × St :=
  ensureDirIfNotExistAux (c.Directory.length + 1) c s

/-- The tail of `EnsureDirectory` (writefile.go lines 71-91): chmod when the
statted mode differs from the configured directory mode or-ed with
`ModeDir`, then the ownership block on the statted `info`. -/
def ensureDirModeOwner (c : Config) (info : FSEntry) (s : St) : Outcome Unit × St :=
  match
    (if statMode info ≠ Nat.lor c.getDirectoryMode modeDir then
       osChmod c.Directory c.getDirectoryMode s
     else (none, s)) with
  | (some e, s) => (.err e, s)
  | (none, s) =>
    if c.EnsureDirectoryOwnership then
      if info.uid ≠ u32 c.DirectoryUID ∨ info.gid ≠ u32 c.DirectoryGID then
        match osChown c.Directory c.DirectoryUID c.DirectoryGID s with
        | (some e, s) => (.err e, s)
        | (none, s) => (.ok (), s)
      else (.ok (), s)
    else (.ok (), s)

/-- `Config.EnsureDirectory` (writefile.go lines 46-92). -/
def Config.EnsureDirectory (c : Config) (s : St) : Outcome Unit × St :=
  if c.Directory = [] then (.panicked dirEmptyMsg, s)
  else if isAbs c.Directory = false then (.panicked dirNotAbsMsg, s)
  else
    match
      (match osStat c.Directory s with
       | (.ok info, s1) => (Outcome.ok info, s1)
       | (.error e, s1) =>
         if isNotExistE e = false then (Outcome.err e, s1)
         else
           match c.EnsureDirectoryIfNotExist s1 with
           | (.ok (), s2) =>
             match osStat c.Directory s2 with
             | (.ok info, s3) => (Outcome.ok info, s3)
             | (.error e2, s3) => (Outcome.err e2, s3)
           | (.err e1, s2) => (Outcome.err e1, s2)
           | (.panicked m, s2) => (Outcome.panicked m, s2)) with
    | (.err e, s) => (.err e, s)
    | (.panicked m, s) => (.panicked m, s)
    | (.ok info, s) => ensureDirModeOwner c info s

/-- Temp-file creation with the single ensure-directory retry
(writefile.go lines 198-209). -/
def Config.createTemp (c : Config) (s : St) : Outcome Path × St :=
  match ioutilTempFile c.Directory c.getTempPattern s with
  | (.ok p, s) => (.ok p, s)
  | (.error e, s) =>
    if isNotExistE e then
      match c.EnsureDirectoryIfNotExist s with
      | (.ok (), s) =>
        match ioutilTempFile c.Directory c.getTempPattern s with
        | (.ok p, s) => (.ok p, s)
        | (.error e2, s) => (.err e2, s)
      | (.err e1, s) => (.err e1, s)
      | (.panicked m, s) => (.panicked m, s)
    else (.err e, s)

/-- State of the deferred cleanup (writefile.go lines 179-196): the open
handle, if any, and the tracked temp name (`[]` plays Go's `""`). -/
structure DeferSt where
  fOpen : Option Path
  tmpName : Path

/-- The deferred cleanup itself: close the handle when still open, remove
the temp file when still tracked; a not-exist removal failure is benign, any
other cleanup failure panics. In the model `Close` never fails, so
`closeErr` is always `none`; the corresponding panic branch is kept for
fidelity. -/
def writeDeferRun (res : Outcome Unit) (d : DeferSt) (s : St) : Outcome Unit × St :=
  let closeErr : Option GoErr := none
  let s := match d.fOpen with
    | some p => emit (.closeEv p) s
    | none => s
  let step : Option GoErr × St :=
    if d.tmpName ≠ [] then osRemove d.tmpName s else (none, s)
  match step with
  | (cleanupErr, s) =>
    match cleanupErr with
    | some e =>
      if isNotExistE e = false then (.panicked removePanicMsg, s)
      else
        match closeErr with
        | some _ => (.panicked closePanicMsg, s)
        | none => (res, s)
    | none =>
      match closeErr with
      | some _ => (.panicked closePanicMsg, s)
      | none => (res, s)

/-- The temp-file protocol of `WriteFile` once validation and recursion have
settled on the terminal directory (writefile.go lines 179-251). -/
def Config.writeFileBody (c : Config) (name : Path) (op : WriteOp) (s : St) :
    Outcome Unit × St :=
  match c.createTemp s with
  | (.panicked m, s) => writeDeferRun (.panicked m) ⟨none, []⟩ s
  | (.err e, s) => writeDeferRun (.err e) ⟨none, []⟩ s
  | (.ok tp, s) =>
    match osFstat tp s with
    | (.error e, s) => writeDeferRun (.err e) ⟨some tp, tp⟩ s
    | (.ok info, s) =>
      match
        (if statMode info ≠ c.getFileMode then osChmod tp c.getFileMode s
         else (none, s)) with
      | (some e, s) => writeDeferRun (.err e) ⟨some tp, tp⟩ s
      | (none, s) =>
        match
          (if c.EnsureFileOwnership then
             if info.uid ≠ u32 c.FileUID ∨ info.gid ≠ u32 c.FileGID then
               osChown tp c.FileUID c.FileGID s
             else (none, s)
           else (none, s)) with
        | (some e, s) => writeDeferRun (.err e) ⟨some tp, tp⟩ s
        | (none, s) =>
          let s := emit (.opCallEv tp) s
          let s := (s.1.setContent tp op.content, s.2)
          match op.err with
          | some e => writeDeferRun (.err e) ⟨some tp, tp⟩ s
          | none =>
            let s := emit (.closeEv tp) s
            match osRename tp (pathJoin c.Directory name) s with
            | (some e, s) => writeDeferRun (.err e) ⟨none, tp⟩ s
            | (none, s) => writeDeferRun (.ok ()) ⟨none, []⟩ s

/-- `Config.WriteFile` (writefile.go lines 157-252) with fuel for the
recursion into subdirectory names; a recursive call is always terminal, so
fuel 2 suffices. -/
def Config.writeFileAux : Nat → Config → Path → WriteOp → St → Outcome Unit × St
  | 0, _, _, _, s => (.panicked fuelMsg, s)
  | Nat.succ fuel, c, name, op, s =>
    if c.Directory = [] then (.panicked dirEmptyMsg, s)
    else if isAbs c.Directory = false then (.panicked dirNotAbsMsg, s)
    else if isAbs name then (.err (.invalidName name), s)
    else
      let fullPath := filepathJoin c.Directory name
      let dir := filepathDir fullPath
      if dir = c.Directory then c.writeFileBody name op s
      else
        if List.isPrefixOf (c.Directory ++ ['/']) dir = false then
          (.err (.invalidName name), s)
        else
          Config.writeFileAux fuel { c with Directory := dir }
            (filepathBase fullPath) op s

/-- `Config.WriteFile`. -/
def Config.WriteFile (c : Config) (name : Path) (op : WriteOp) (s : St) :
    Outcome Unit × St :=
  Config.writeFileAux 2 c name op s

/-! ## Path lemmas -/

/-- A path component in normal form: non-empty, not a dot element, free of
separators. -/
def niceC (c : Path) : Prop :=
  c ≠ [] ∧ c ≠ ['.'] ∧ c ≠ ['.', '.'] ∧ '/' ∉ c

/-- The absolute path with the given components. -/
def absOf (cs : List Path) : Path := '/' :: joinComps cs

theorem splitSlash_ne_nil (l : Path) : splitSlash l ≠ [] := by
  induction l with
  | nil => simp [splitSlash]
  | cons c r ih =>
    by_cases h : c = '/'
    · simp [splitSlash, h]
    · rcases hr : splitSlash r with _ | ⟨p, ps⟩
      · exact absurd hr ih
      · simp [splitSlash, h, hr]

theorem splitSlash_slash (r : Path) : splitSlash ('/' :: r) = [] :: splitSlash r := by
  simp [splitSlash]

theorem splitSlash_no_slash {c : Path} (h : '/' ∉ c) : splitSlash c = [c] := by
  induction c with
  | nil => simp [splitSlash]
  | cons a t ih =>
    have ha : a ≠ '/' := fun he => h (by simp [he])
    have ht : '/' ∉ t := fun hm => h (by simp [hm])
    simp [splitSlash, ha, ih ht]

theorem splitSlash_append_slash {c : Path} (h : '/' ∉ c) (t : Path) :
    splitSlash (c ++ '/' :: t) = c :: splitSlash t := by
  induction c with
  | nil => simp [splitSlash_slash]
  | cons a d ih =>
    have ha : a ≠ '/' := fun he => h (by simp [he])
    have hd : '/' ∉ d := fun hm => h (by simp [hm])
    rw [List.cons_append, splitSlash, if_neg ha, ih hd]

theorem splitSlash_append_trailing (x : Path) :
    splitSlash (x ++ ['/']) = splitSlash x ++ [[]] := by
  induction x with
  | nil => simp [splitSlash]
  | cons a t ih =>
    by_cases ha : a = '/'
    · simp [ha, splitSlash_slash, ih]
    · rcases hr : splitSlash t with _ | ⟨p, ps⟩
      · exact absurd hr (splitSlash_ne_nil _)
      · have : splitSlash (t ++ ['/']) = p :: (ps ++ [[]]) := by rw [ih, hr]; simp
        simp [splitSlash, ha, hr, this]

theorem splitSlash_mem_no_slash {l : Path} : ∀ c ∈ splitSlash l, '/' ∉ c := by
  induction l with
  | nil => intro c hc; simp [splitSlash] at hc; simp [hc]
  | cons a t ih =>
    intro c hc
    by_cases ha : a = '/'
    · rw [ha, splitSlash_slash, List.mem_cons] at hc
      rcases hc with hc | hc
      · simp [hc]
      · exact ih c hc
    · rcases hr : splitSlash t with _ | ⟨p, ps⟩
      · exact absurd hr (splitSlash_ne_nil _)
      · rw [splitSlash, if_neg ha, hr, List.mem_cons] at hc
        rcases hc with hc | hc
        · subst hc
          intro hm
          rcases List.mem_cons.mp hm with hm | hm
          · exact ha hm.symm
          · exact ih p (by simp [hr]) hm
        · exact ih c (by simp [hr, List.mem_cons, hc])

theorem joinComps_cons {x : List Path} (c : Path) (h : x ≠ []) :
    joinComps (c :: x) = c ++ '/' :: joinComps x := by
  cases x with
  | nil => exact absurd rfl h
  | cons a t => simp [joinComps]

theorem joinComps_append_last {cs : List Path} (h : cs ≠ []) (b : Path) :
    joinComps (cs ++ [b]) = joinComps cs ++ '/' :: b := by
  induction cs with
  | nil => exact absurd rfl h
  | cons a t ih =>
    cases t with
    | nil => simp [joinComps]
    | cons a' t' =>
      rw [List.cons_append, joinComps_cons a (by simp),
        joinComps_cons a (by simp), ih (by simp)]
      simp

theorem splitSlash_joinComps {cs : List Path} (hne : cs ≠ [])
    (h : ∀ c ∈ cs, '/' ∉ c) : splitSlash (joinComps cs) = cs := by
  induction cs with
  | nil => exact absurd rfl hne
  | cons a t ih =>
    cases t with
    | nil => exact splitSlash_no_slash (h a (by simp))
    | cons a' t' =>
      rw [joinComps_cons a (by simp),
        splitSlash_append_slash (h a (by simp)),
        ih (by simp) (fun c hc => h c (by simp [hc]))]

/-- Total length of components plus one separator each. -/
def compsLen (l : List Path) : Nat := (l.map (fun c => c.length + 1)).sum

theorem compsLen_nil : compsLen [] = 0 := rfl

theorem compsLen_cons (c : Path) (l : List Path) :
    compsLen (c :: l) = c.length + 1 + compsLen l := by
  simp [compsLen]

theorem compsLen_reverse (l : List Path) : compsLen l.reverse = compsLen l := by
  unfold compsLen
  rw [List.map_reverse, List.sum_reverse]

theorem compsLen_splitSlash (p : Path) : compsLen (splitSlash p) = p.length + 1 := by
  induction p with
  | nil => simp [splitSlash, compsLen]
  | cons a t ih =>
    by_cases ha : a = '/'
    · rw [ha, splitSlash_slash, compsLen_cons]; simp; omega
    · rcases hr : splitSlash t with _ | ⟨p, ps⟩
      · exact absurd hr (splitSlash_ne_nil _)
      · rw [hr, compsLen_cons] at ih
        rw [splitSlash, if_neg ha, hr, compsLen_cons]
        simp at ih ⊢
        omega

theorem compsLen_cleanPush (r : Bool) (acc : List Path) (c : Path) :
    compsLen (cleanPush r acc c) ≤ compsLen acc + (c.length + 1) := by
  by_cases h1 : c = [] ∨ c = ['.']
  · simp [cleanPush, h1]
  · by_cases h2 : c = ['.', '.']
    · subst h2
      rcases acc with _ | ⟨a, acc'⟩
      · rcases r with _ | _ <;> simp [cleanPush, h1, compsLen_cons, compsLen_nil]
      · by_cases h3 : a = ['.', '.']
        · subst h3
          simp [cleanPush, h1, compsLen_cons]
          omega
        · simp [cleanPush, h1, h3, compsLen_cons]
          omega
    · simp [cleanPush, h1, h2, compsLen_cons]
      omega

theorem compsLen_cleanParts (r : Bool) (l : List Path) :
    ∀ acc, compsLen (cleanParts r acc l) ≤ compsLen acc + compsLen l := by
  induction l with
  | nil => intro acc; simp [cleanParts, compsLen_nil]
  | cons c t ih =>
    intro acc
    rw [cleanParts, compsLen_cons]
    have h1 := ih (cleanPush r acc c)
    have h2 := compsLen_cleanPush r acc c
    omega

theorem cleanPush_nil (r : Bool) (acc : List Path) : cleanPush r acc [] = acc := by
  simp [cleanPush]

theorem cleanPush_nice {acc : List Path} {c : Path} (r : Bool) (h : niceC c) :
    cleanPush r acc c = c :: acc := by
  obtain ⟨h1, h2, h3, _⟩ := h
  simp [cleanPush, h1, h2, h3]

theorem cleanParts_nice {l : List Path} (r : Bool) (h : ∀ c ∈ l, niceC c) :
    ∀ acc, cleanParts r acc l = l.reverse ++ acc := by
  induction l with
  | nil => intro acc; simp [cleanParts]
  | cons c t ih =>
    intro acc
    rw [cleanParts, cleanPush_nice r (h c (by simp)),
      ih (fun d hd => h d (by simp [hd]))]
    simp

theorem cleanParts_skip (r : Bool) (acc : List Path) (t : List Path) :
    cleanParts r acc ([] :: t) = cleanParts r acc t := by
  rw [cleanParts, cleanPush_nil]

theorem cleanParts_trailing_nil (r : Bool) (l : List Path) :
    ∀ acc, cleanParts r acc (l ++ [[]]) = cleanParts r acc l := by
  induction l with
  | nil => intro acc; rw [List.nil_append, cleanParts_skip]
  | cons c t ih =>
    intro acc
    rw [List.cons_append, cleanParts, cleanParts, ih]

theorem cleanPush_nice_inv {acc : List Path} {c : Path}
    (hacc : ∀ a ∈ acc, niceC a) (hc : '/' ∉ c) :
    ∀ a ∈ cleanPush true acc c, niceC a := by
  intro a ha
  by_cases h1 : c = [] ∨ c = ['.']
  · have hv : cleanPush true acc c = acc := by
      rcases h1 with h1 | h1 <;> simp [cleanPush, h1]
    rw [hv] at ha
    exact hacc a ha
  · by_cases h2 : c = ['.', '.']
    · subst h2
      rcases acc with _ | ⟨b, acc'⟩
      · have hv : cleanPush true [] ['.', '.'] = [] := by simp [cleanPush]
        rw [hv] at ha
        simp at ha
      · have hb := hacc b (by simp)
        have hv : cleanPush true (b :: acc') ['.', '.'] = acc' := by
          simp [cleanPush, hb.2.2.1]
        rw [hv] at ha
        exact hacc a (by simp [ha])
    · have hv : cleanPush true acc c = c :: acc := by
        simp [cleanPush, h2]
        exact ⟨fun he => h1 (Or.inl he), fun he => h1 (Or.inr he)⟩
      rw [hv] at ha
      rcases List.mem_cons.mp ha with ha | ha
      · subst ha
        exact ⟨fun he => h1 (Or.inl he), fun he => h1 (Or.inr he), h2, hc⟩
      · exact hacc a ha

theorem cleanParts_nice_inv {l : List Path} :
    ∀ acc, (∀ a ∈ acc, niceC a) → (∀ c ∈ l, '/' ∉ c) →
    ∀ a ∈ cleanParts true acc l, niceC a := by
  induction l with
  | nil => intro acc hacc _ a ha; exact hacc a ha
  | cons c t ih =>
    intro acc hacc hl a ha
    rw [cleanParts] at ha
    exact ih (cleanPush true acc c)
      (cleanPush_nice_inv hacc (hl c (by simp))) (fun d hd => hl d (by simp [hd])) a ha

theorem isAbs_iff {p : Path} : isAbs p = true ↔ ∃ q, p = '/' :: q := by
  cases p with
  | nil => simp [isAbs]
  | cons a q =>
    constructor
    · intro h
      have ha : a = '/' := by simpa [isAbs] using h
      exact ⟨q, by rw [ha]⟩
    · rintro ⟨q', hq⟩
      injection hq with h1 h2
      subst h1
      simp [isAbs]

theorem isAbs_absOf (cs : List Path) : isAbs (absOf cs) = true := rfl

theorem clean_abs {p : Path} (h : isAbs p = true) :
    clean p = absOf (cleanParts true [] (splitSlash p)).reverse := by
  obtain ⟨q, rfl⟩ := isAbs_iff.mp h
  rw [clean, if_neg (by simp)]
  simp [h, absOf]

theorem clean_shape {p : Path} (h : isAbs p = true) :
    ∃ cs, (∀ c ∈ cs, niceC c) ∧ clean p = absOf cs := by
  refine ⟨(cleanParts true [] (splitSlash p)).reverse, ?_, clean_abs h⟩
  intro c hc
  exact cleanParts_nice_inv [] (by simp) (splitSlash_mem_no_slash) c
    (List.mem_reverse.mp hc)

theorem clean_absOf {cs : List Path} (h : ∀ c ∈ cs, niceC c) :
    clean (absOf cs) = absOf cs := by
  rcases cs with _ | ⟨c, cs'⟩
  · decide
  · rw [clean_abs (isAbs_absOf _)]
    simp only [absOf, splitSlash_slash]
    rw [splitSlash_joinComps (by simp) (fun d hd => (h d hd).2.2.2),
      cleanParts_skip, cleanParts_nice true h]
    simp

theorem clean_absOf_slash {cs : List Path} (h : ∀ c ∈ cs, niceC c) :
    clean (absOf cs ++ ['/']) = absOf cs := by
  rcases cs with _ | ⟨c, cs'⟩
  · decide
  · have habs : isAbs (absOf (c :: cs') ++ ['/']) = true := rfl
    rw [clean_abs habs]
    have hsp : splitSlash (absOf (c :: cs') ++ ['/']) = ([] :: (c :: cs')) ++ [[]] := by
      rw [splitSlash_append_trailing]
      simp only [absOf, splitSlash_slash]
      rw [splitSlash_joinComps (by simp) (fun d hd => (h d hd).2.2.2)]
    rw [hsp, cleanParts_trailing_nil, cleanParts_skip, cleanParts_nice true h]
    simp [absOf]

theorem joinComps_len {cs : List Path} (hne : cs ≠ []) :
    (joinComps cs).length + 1 = compsLen cs := by
  induction cs with
  | nil => exact absurd rfl hne
  | cons a t ih =>
    rcases t with _ | ⟨a', t'⟩
    · simp [joinComps, compsLen_cons, compsLen_nil]
    · rw [joinComps_cons a (by simp), compsLen_cons]
      simp only [List.length_append, List.length_cons]
      rw [← ih (by simp)]
      omega

theorem clean_len_le {p : Path} (h : isAbs p = true) :
    (clean p).length ≤ p.length := by
  obtain ⟨q, rfl⟩ := isAbs_iff.mp h
  rw [clean_abs h, splitSlash_slash, cleanParts_skip]
  rcases hcp : cleanParts true [] (splitSlash q) with _ | ⟨c, cs'⟩
  · simp [absOf, joinComps]
  · have hlen : compsLen (c :: cs') ≤ compsLen (splitSlash q) := by
      have := compsLen_cleanParts true (splitSlash q) []
      rw [hcp, compsLen_nil] at this
      omega
    rw [compsLen_splitSlash] at hlen
    have hjc := joinComps_len (by simp : (c :: cs').reverse ≠ [])
    rw [compsLen_reverse] at hjc
    simp only [absOf, List.length_cons]
    omega

theorem clean_len_lt {p : Path} (h : isAbs p = true)
    (hsl : p.getLast? = some '/') (hne : p ≠ root) :
    (clean p).length < p.length := by
  obtain ⟨q, rfl⟩ := isAbs_iff.mp h
  have hq : q ≠ [] := by
    intro he
    exact hne (by rw [he]; rfl)
  obtain ⟨x, rfl⟩ : ∃ x, q = x ++ ['/'] := by
    rcases List.eq_nil_or_concat q with he | ⟨x, b, hxb⟩
    · exact absurd he hq
    · rw [List.concat_eq_append] at hxb
      subst hxb
      have hlast : ('/' :: (x ++ [b])).getLast? = some b := by
        rw [← List.cons_append]
        exact List.getLast?_concat _
      rw [hlast] at hsl
      injection hsl with hb
      exact ⟨x, by rw [hb]⟩
  rw [clean_abs h, splitSlash_slash, cleanParts_skip, splitSlash_append_trailing,
    cleanParts_trailing_nil]
  rcases hcp : cleanParts true [] (splitSlash x) with _ | ⟨c, cs'⟩
  · simp [absOf, joinComps]
  · have hlen : compsLen (c :: cs') ≤ compsLen (splitSlash x) := by
      have := compsLen_cleanParts true (splitSlash x) []
      rw [hcp, compsLen_nil] at this
      omega
    rw [compsLen_splitSlash] at hlen
    have hjc := joinComps_len (by simp : (c :: cs').reverse ≠ [])
    rw [compsLen_reverse] at hjc
    simp only [absOf, List.length_cons, List.length_append]
    omega

theorem takeToLastSlash_no_slash {c : Path} (h : '/' ∉ c) :
    takeToLastSlash c = none := by
  induction c with
  | nil => rfl
  | cons a t ih =>
    have ha : a ≠ '/' := fun he => h (by simp [he])
    have ht : '/' ∉ t := fun hm => h (by simp [hm])
    rw [takeToLastSlash, ih ht, if_neg ha]

theorem takeToLastSlash_len {d t : Path} (h : takeToLastSlash d = some t) :
    t.length ≤ d.length ∧ t ≠ [] := by
  induction d generalizing t with
  | nil => simp [takeToLastSlash] at h
  | cons a r ih =>
    rw [takeToLastSlash] at h
    rcases hr : takeToLastSlash r with _ | t'
    · rw [hr] at h
      by_cases ha : a = '/'
      · rw [if_pos ha] at h
        injection h with h1
        subst h1
        simp
      · rw [if_neg ha] at h
        exact absurd h (by simp)
    · rw [hr] at h
      injection h with h1
      subst h1
      obtain ⟨hl, _⟩ := ih hr
      constructor
      · simpa using Nat.succ_le_succ hl
      · simp

theorem takeToLastSlash_abs {d : Path} (h : isAbs d = true) :
    ∃ t, takeToLastSlash d = some t ∧ isAbs t = true := by
  obtain ⟨q, rfl⟩ := isAbs_iff.mp h
  rw [takeToLastSlash]
  rcases hr : takeToLastSlash q with _ | t'
  · exact ⟨['/'], by simp, rfl⟩
  · exact ⟨'/' :: t', by simp, rfl⟩

theorem takeToLastSlash_append {c : Path} (h : '/' ∉ c) (x : Path) :
    takeToLastSlash (x ++ '/' :: c) = some (x ++ ['/']) := by
  induction x with
  | nil =>
    rw [List.nil_append, takeToLastSlash, takeToLastSlash_no_slash h]
    simp
  | cons a x' ih =>
    rw [List.cons_append, takeToLastSlash, ih]
    simp

theorem takeToLastSlash_getLast {d t : Path} (h : takeToLastSlash d = some t) :
    t.getLast? = some '/' := by
  induction d generalizing t with
  | nil => simp [takeToLastSlash] at h
  | cons a r ih =>
    rw [takeToLastSlash] at h
    rcases hr : takeToLastSlash r with _ | t'
    · rw [hr] at h
      by_cases ha : a = '/'
      · rw [if_pos ha] at h
        injection h with h1
        subst h1
        subst ha
        rfl
      · rw [if_neg ha] at h
        exact absurd h (by simp)
    · rw [hr] at h
      injection h with h1
      subst h1
      have := ih hr
      obtain ⟨_, hne⟩ := takeToLastSlash_len hr
      rcases t' with _ | ⟨b, t''⟩
      · exact absurd rfl hne
      · rwa [List.getLast?_cons_cons]

theorem filepathDir_root : filepathDir root = root := by decide

theorem filepathDir_eq_clean {d t : Path} (h : takeToLastSlash d = some t) :
    filepathDir d = clean t := by
  rw [filepathDir, h]

theorem isAbs_clean {p : Path} (h : isAbs p = true) : isAbs (clean p) = true := by
  rw [clean_abs h]
  rfl

theorem isAbs_filepathDir {d : Path} (h : isAbs d = true) :
    isAbs (filepathDir d) = true := by
  obtain ⟨t, ht, habs⟩ := takeToLastSlash_abs h
  rw [filepathDir_eq_clean ht]
  exact isAbs_clean habs

theorem filepathDir_len_lt {d : Path} (h : isAbs d = true) (hne : d ≠ root) :
    (filepathDir d).length < d.length := by
  obtain ⟨t, ht, habs⟩ := takeToLastSlash_abs h
  obtain ⟨hlen, htne⟩ := takeToLastSlash_len ht
  have hlast := takeToLastSlash_getLast ht
  rw [filepathDir_eq_clean ht]
  have hd2 : 2 ≤ d.length := by
    obtain ⟨q, rfl⟩ := isAbs_iff.mp h
    rcases q with _ | ⟨b, q'⟩
    · exact absurd rfl hne
    · simp
  by_cases htr : t = root
  · subst htr
    have : (clean root).length = 1 := by decide
    omega
  · have := clean_len_lt habs hlast htr
    omega

theorem filepathDir_eq_self {d : Path} (h : isAbs d = true)
    (he : filepathDir d = d) : d = root := by
  by_contra hne
  have := filepathDir_len_lt h hne
  rw [he] at this
  omega

/-- An absolute path in `Clean` normal form. -/
def Cleaned (q : Path) : Prop := ∃ cs, (∀ c ∈ cs, niceC c) ∧ q = absOf cs

theorem cleaned_clean {p : Path} (h : isAbs p = true) : Cleaned (clean p) := by
  obtain ⟨cs, hn, he⟩ := clean_shape h
  exact ⟨cs, hn, he⟩

theorem cleaned_root : Cleaned root := ⟨[], by simp, rfl⟩

theorem cleaned_isAbs {q : Path} (h : Cleaned q) : isAbs q = true := by
  obtain ⟨cs, _, rfl⟩ := h
  rfl

theorem cleaned_filepathJoin {d : Path} (name : Path) (hd : d ≠ [])
    (habs : isAbs d = true) : Cleaned (filepathJoin d name) := by
  rcases hn : name with _ | ⟨a, t⟩
  · rw [filepathJoin, if_neg (by simp [hd]), if_neg hd, if_pos rfl]
    exact cleaned_clean habs
  · rw [filepathJoin, if_neg (by simp [hd]), if_neg hd, if_neg (by simp)]
    refine cleaned_clean ?_
    obtain ⟨q, rfl⟩ := isAbs_iff.mp habs
    rfl

theorem filepathDir_absOf {cs : List Path} {b : Path}
    (h : ∀ c ∈ cs, niceC c) (hb : niceC b) :
    filepathDir (absOf (cs ++ [b])) = absOf cs := by
  rcases cs with _ | ⟨c, cs'⟩
  · have hsh : absOf ([] ++ [b]) = [] ++ '/' :: b := by simp [absOf, joinComps]
    rw [hsh, filepathDir_eq_clean (takeToLastSlash_append hb.2.2.2 [])]
    decide
  · have hsh : absOf ((c :: cs') ++ [b]) = absOf (c :: cs') ++ '/' :: b := by
      rw [absOf, joinComps_append_last (by simp), absOf]
      simp
    rw [hsh, filepathDir_eq_clean (takeToLastSlash_append hb.2.2.2 _)]
    exact clean_absOf_slash h

theorem filepathBase_absOf {cs : List Path} {b : Path}
    (h : ∀ c ∈ cs, niceC c) (hb : niceC b) :
    filepathBase (absOf (cs ++ [b])) = b := by
  obtain ⟨y, hy⟩ : ∃ y, absOf (cs ++ [b]) = y ++ '/' :: b := by
    rcases cs with _ | ⟨c, cs'⟩
    · exact ⟨[], by simp [absOf, joinComps]⟩
    · refine ⟨absOf (c :: cs'), ?_⟩
      rw [absOf, joinComps_append_last (by simp), absOf]
      simp
  obtain ⟨bb, bt, hbr⟩ : ∃ bb bt, b.reverse = bb :: bt := by
    rcases hbr : b.reverse with _ | ⟨bb, bt⟩
    · exact absurd (by simpa using congrArg List.reverse hbr) hb.1
    · exact ⟨bb, bt, rfl⟩
  have hbbne : bb ≠ '/' := by
    intro he
    apply hb.2.2.2
    rw [← List.mem_reverse, hbr, he]
    simp
  have hrev : (y ++ '/' :: b).reverse = bb :: (bt ++ '/' :: y.reverse) := by
    rw [List.reverse_append, List.reverse_cons, hbr]
    simp
  have hstrip : stripTrailSlashes (y ++ '/' :: b) = y ++ '/' :: b := by
    rw [stripTrailSlashes, hrev, List.dropWhile_cons_of_neg (by simp [hbbne]), ← hrev]
    simp
  have hafter : afterLastSlash (y ++ '/' :: b) = b := by
    rw [afterLastSlash, hrev]
    have htw : ∀ u v : Path, (∀ a ∈ u, a ≠ '/') →
        List.takeWhile (fun c => c ≠ '/') (u ++ v) =
          u ++ List.takeWhile (fun c => c ≠ '/') v := by
      intro u v hu
      induction u with
      | nil => simp
      | cons a u' ihu =>
        rw [List.cons_append, List.takeWhile_cons_of_pos (by simp [hu a (by simp)]),
          ihu (fun x hx => hu x (by simp [hx]))]
        rfl
    have hbt : ∀ a ∈ bb :: bt, a ≠ '/' := by
      intro a ha
      intro he
      apply hb.2.2.2
      rw [← List.mem_reverse, hbr]
      rw [he] at ha
      exact ha
    rw [show bb :: (bt ++ '/' :: y.reverse) = (bb :: bt) ++ '/' :: y.reverse by simp,
      htw (bb :: bt) _ hbt, List.takeWhile_cons_of_neg (by simp)]
    rw [List.append_nil, ← hbr]
    simp
  rw [hy]
  simp only [filepathBase, if_neg (show y ++ '/' :: b ≠ [] by simp)]
  rw [hstrip, hafter, if_neg hb.1]

theorem filepathJoin_absOf {cs : List Path} {b : Path}
    (h : ∀ c ∈ cs, niceC c) (hb : niceC b) :
    filepathJoin (absOf cs) b = absOf (cs ++ [b]) := by
  rw [filepathJoin, if_neg (by simp [absOf]), if_neg (by simp [absOf]), if_neg hb.1]
  rcases cs with _ | ⟨c, cs'⟩
  · have hsh : absOf [] ++ '/' :: b = '/' :: '/' :: b := rfl
    rw [hsh]
    have habs : isAbs ('/' :: '/' :: b) = true := rfl
    rw [clean_abs habs, splitSlash_slash, splitSlash_slash,
      splitSlash_no_slash hb.2.2.2, cleanParts_skip, cleanParts_skip,
      cleanParts_nice true (by simp [hb])]
    simp [absOf, joinComps]
  · have hsh : absOf (c :: cs') ++ '/' :: b = absOf ((c :: cs') ++ [b]) := by
      rw [absOf, absOf, joinComps_append_last (by simp)]
      simp
    rw [hsh]
    refine clean_absOf ?_
    intro d hd
    rcases List.mem_append.mp hd with hd | hd
    · exact h d hd
    · rw [List.mem_singleton.mp hd]
      exact hb

theorem cleaned_decomp {q : Path} (h : Cleaned q) :
    q = root ∨ ∃ cs b, (∀ c ∈ cs, niceC c) ∧ niceC b ∧ q = absOf (cs ++ [b]) := by
  obtain ⟨cs, hn, rfl⟩ := h
  rcases List.eq_nil_or_concat cs with rfl | ⟨cs', b, hcb⟩
  · left; rfl
  · right
    rw [List.concat_eq_append] at hcb
    subst hcb
    exact ⟨cs', b, fun c hc => hn c (by simp [hc]), hn b (by simp), rfl⟩

theorem cleaned_no_dslash {q : Path} (h : Cleaned q) :
    List.isPrefixOf ['/', '/'] q = false := by
  obtain ⟨cs, hn, rfl⟩ := h
  rcases cs with _ | ⟨c, cs'⟩
  · decide
  · have hc := hn c (by simp)
    obtain ⟨ch, ct, rfl⟩ : ∃ ch ct, c = ch :: ct := by
      rcases c with _ | ⟨ch, ct⟩
      · exact absurd rfl hc.1
      · exact ⟨ch, ct, rfl⟩
    have hch : ch ≠ '/' := fun he => hc.2.2.2 (by simp [he])
    have hjc : ∃ rest, absOf ((ch :: ct) :: cs') = '/' :: ch :: rest := by
      rcases cs' with _ | ⟨c2, cs''⟩
      · exact ⟨ct, rfl⟩
      · exact ⟨ct ++ '/' :: joinComps (c2 :: cs''), by
          rw [absOf, joinComps_cons _ (by simp)]
          simp⟩
    obtain ⟨rest, hre⟩ := hjc
    rw [hre]
    simp [List.isPrefixOf, hch]
    exact fun he => hch he.symm

/-! ## Filesystem lemmas -/

theorem lookupA_eraseA_self (l : List (Path × FSEntry)) (p : Path) :
    lookupA (eraseA l p) p = none := by
  induction l with
  | nil => rfl
  | cons kv rest ih =>
    obtain ⟨k, v⟩ := kv
    by_cases hk : k = p
    · rw [eraseA, if_pos hk]
      exact ih
    · rw [eraseA, if_neg hk, lookupA, if_neg hk]
      exact ih

theorem lookupA_eraseA_ne (l : List (Path × FSEntry)) {p q : Path} (h : q ≠ p) :
    lookupA (eraseA l p) q = lookupA l q := by
  induction l with
  | nil => rfl
  | cons kv rest ih =>
    obtain ⟨k, v⟩ := kv
    by_cases hk : k = p
    · rw [eraseA, if_pos hk, lookupA, if_neg (by rw [hk]; exact fun he => h he.symm), ih]
    · rw [eraseA, if_neg hk, lookupA, lookupA, ih]

theorem FS.lookup_insert_self (fs : FS) (p : Path) (e : FSEntry) :
    (fs.insert p e).lookup p = some e := by
  rw [FS.insert, FS.lookup, lookupA, if_pos rfl]

theorem FS.lookup_insert_ne (fs : FS) {p q : Path} (e : FSEntry) (h : q ≠ p) :
    (fs.insert p e).lookup q = fs.lookup q := by
  rw [FS.insert, FS.lookup, lookupA, if_neg (fun he => h he.symm)]
  exact lookupA_eraseA_ne _ h

theorem FS.lookup_erase_self (fs : FS) (p : Path) :
    (fs.erase p).lookup p = none := by
  rw [FS.erase, FS.lookup]
  exact lookupA_eraseA_self _ _

theorem FS.lookup_erase_ne (fs : FS) {p q : Path} (h : q ≠ p) :
    (fs.erase p).lookup q = fs.lookup q := by
  rw [FS.erase, FS.lookup]
  exact lookupA_eraseA_ne _ h

theorem FS.lookup_setContent_ne (fs : FS) {p q : Path} (content : Path) (h : q ≠ p) :
    (fs.setContent p content).lookup q = fs.lookup q := by
  rw [FS.setContent]
  rcases fs.lookup p with _ | e
  · rfl
  · exact FS.lookup_insert_ne fs _ h

theorem FS.insert_procUid (fs : FS) (p : Path) (e : FSEntry) :
    (fs.insert p e).procUid = fs.procUid := rfl

theorem FS.setContent_procUid (fs : FS) (p content : Path) :
    (fs.setContent p content).procUid = fs.procUid := by
  rw [FS.setContent]
  rcases fs.lookup p with _ | e <;> rfl

/-! ## Syscall equation lemmas -/

theorem osStat_hit {p : Path} {s : St} {e : FSEntry} (h : s.1.lookup p = some e) :
    osStat p s = (.ok e, (s.1, s.2 ++ [Ev.statEv p])) := by
  rw [osStat, emit]
  simp only [h]

theorem osStat_miss {p : Path} {s : St} (h : s.1.lookup p = none) :
    osStat p s = (.error (.notExist p), (s.1, s.2 ++ [Ev.statEv p])) := by
  rw [osStat, emit]
  simp only [h]

theorem osFstat_hit {p : Path} {s : St} {e : FSEntry} (h : s.1.lookup p = some e) :
    osFstat p s = (.ok e, (s.1, s.2 ++ [Ev.statEv p])) := by
  rw [osFstat, emit]
  simp only [h]

theorem osMkdir_hit {p : Path} {m : Nat} {s : St} {e : FSEntry}
    (h : s.1.lookup p = some e) :
    osMkdir p m s = (some (.alreadyExists p), (s.1, s.2 ++ [Ev.mkdirEv p])) := by
  rw [osMkdir, emit]
  simp only [h]

theorem osMkdir_create {p : Path} {m : Nat} {s : St} {parent : FSEntry}
    (h : s.1.lookup p = none) (hp : s.1.lookup (filepathDir p) = some parent)
    (hd : parent.isDir = true) :
    osMkdir p m s =
      (none, (s.1.insert p ⟨true, m, s.1.procUid, s.1.procGid, []⟩,
        s.2 ++ [Ev.mkdirEv p])) := by
  rw [osMkdir, emit]
  simp only [h, hp, hd, if_pos]

theorem osMkdir_noparent {p : Path} {m : Nat} {s : St}
    (h : s.1.lookup p = none) (hp : s.1.lookup (filepathDir p) = none) :
    osMkdir p m s = (some (.notExist p), (s.1, s.2 ++ [Ev.mkdirEv p])) := by
  rw [osMkdir, emit]
  simp only [h, hp]

theorem osMkdir_parentfile {p : Path} {m : Nat} {s : St} {parent : FSEntry}
    (h : s.1.lookup p = none) (hp : s.1.lookup (filepathDir p) = some parent)
    (hd : parent.isDir = false) :
    osMkdir p m s = (some (.notDir p), (s.1, s.2 ++ [Ev.mkdirEv p])) := by
  rw [osMkdir, emit]
  simp only [h, hp, hd]
  rfl

theorem osChmod_hit {p : Path} {m : Nat} {s : St} {e : FSEntry}
    (h : s.1.lookup p = some e) :
    osChmod p m s = (none, (s.1.insert p { e with perm := m },
      s.2 ++ [Ev.chmodEv p m])) := by
  rw [osChmod, emit]
  simp only [h]

theorem osChmod_miss {p : Path} {m : Nat} {s : St} (h : s.1.lookup p = none) :
    osChmod p m s = (some (.notExist p), (s.1, s.2 ++ [Ev.chmodEv p m])) := by
  rw [osChmod, emit]
  simp only [h]

theorem osChown_hit {p : Path} {u g : Nat} {s : St} {e : FSEntry}
    (h : s.1.lookup p = some e) :
    osChown p u g s = (none, (s.1.insert p { e with uid := u32 u, gid := u32 g },
      s.2 ++ [Ev.chownEv p u g])) := by
  rw [osChown, emit]
  simp only [h]

theorem osChown_miss {p : Path} {u g : Nat} {s : St} (h : s.1.lookup p = none) :
    osChown p u g s = (some (.notExist p), (s.1, s.2 ++ [Ev.chownEv p u g])) := by
  rw [osChown, emit]
  simp only [h]

theorem osRemove_miss {p : Path} {s : St} (h : s.1.lookup p = none) :
    osRemove p s = (some (.notExist p), (s.1, s.2 ++ [Ev.removeEv p])) := by
  rw [osRemove, emit]
  simp only [h]

theorem osRemove_file {p : Path} {s : St} {e : FSEntry}
    (h : s.1.lookup p = some e) (hd : e.isDir = false) :
    osRemove p s = (none, (s.1.erase p, s.2 ++ [Ev.removeEv p])) := by
  rw [osRemove, emit]
  simp only [h, hd]
  rfl

theorem ioutilTempFile_nodir {dir pat : Path} {s : St}
    (h : s.1.lookup dir = none) :
    ioutilTempFile dir pat s =
      (.error (.notExist dir), (s.1, s.2 ++ [Ev.tempTryEv dir])) := by
  rw [ioutilTempFile, emit]
  simp only [h]

theorem ioutilTempFile_filedir {dir pat : Path} {s : St} {e : FSEntry}
    (h : s.1.lookup dir = some e) (hd : e.isDir = false) :
    ioutilTempFile dir pat s =
      (.error (.notDir dir), (s.1, s.2 ++ [Ev.tempTryEv dir])) := by
  rw [ioutilTempFile, emit]
  simp only [h, hd]
  rfl

theorem ioutilTempFile_collide {dir pat : Path} {s : St} {e e' : FSEntry}
    (h : s.1.lookup dir = some e) (hd : e.isDir = true)
    (hc : s.1.lookup (filepathJoin dir (tempNameOf pat (freshLen s.1))) = some e') :
    ioutilTempFile dir pat s =
      (.error (.alreadyExists (filepathJoin dir (tempNameOf pat (freshLen s.1)))),
        (s.1, s.2 ++ [Ev.tempTryEv dir])) := by
  rw [ioutilTempFile, emit]
  simp only [h, hd, hc, if_pos]

theorem ioutilTempFile_create {dir pat : Path} {s : St} {e : FSEntry}
    (h : s.1.lookup dir = some e) (hd : e.isDir = true)
    (hc : s.1.lookup (filepathJoin dir (tempNameOf pat (freshLen s.1))) = none) :
    ioutilTempFile dir pat s =
      (.ok (filepathJoin dir (tempNameOf pat (freshLen s.1))),
        (s.1.insert (filepathJoin dir (tempNameOf pat (freshLen s.1)))
          ⟨false, 0o600, s.1.procUid, s.1.procGid, []⟩,
         s.2 ++ [Ev.tempTryEv dir,
           Ev.tempCreateEv (filepathJoin dir (tempNameOf pat (freshLen s.1)))])) := by
  rw [ioutilTempFile, emit]
  simp only [h, hd, hc, if_pos]
  rw [emit]
  simp

/-! ## Invariants of the directory guarantor -/

/-- The only events the directory guarantor emits. -/
def evKindDir (ev : Ev) : Prop :=
  (∃ p, ev = .statEv p) ∨ (∃ p, ev = .mkdirEv p) ∨ (∃ p u g, ev = .chownEv p u g)

theorem isAbs_true_of_not_false {p : Path} (h : ¬isAbs p = false) : isAbs p = true := by
  cases hb : isAbs p
  · exact absurd hb h
  · rfl

theorem ensureDirOwnership_inv (c : Config) (s : St) :
    (∃ t, (ensureDirOwnership c s).2.2 = s.2 ++ t ∧ ∀ ev ∈ t, evKindDir ev) ∧
    (ensureDirOwnership c s).2.1.procUid = s.1.procUid ∧
    (ensureDirOwnership c s).2.1.procGid = s.1.procGid ∧
    (∀ q, q ≠ c.Directory → (ensureDirOwnership c s).2.1.lookup q = s.1.lookup q) ∧
    (∀ q e, s.1.lookup q = some e →
      ∃ e', (ensureDirOwnership c s).2.1.lookup q = some e') ∧
    (∀ m, (ensureDirOwnership c s).1 ≠ .panicked m) := by
  by_cases hf : c.EnsureDirectoryOwnership = true
  · rcases hlk : s.1.lookup c.Directory with _ | info
    · have heq : ensureDirOwnership c s =
          (.err (.notExist c.Directory), (s.1, s.2 ++ [Ev.statEv c.Directory])) := by
        rw [ensureDirOwnership, if_pos hf, osStat_miss hlk]
      rw [heq]
      exact ⟨⟨[Ev.statEv c.Directory], rfl, by simp [evKindDir]⟩, rfl, rfl,
        fun q _ => rfl, fun q e he => ⟨e, he⟩, by simp⟩
    · by_cases hm : info.uid ≠ u32 c.DirectoryUID ∨ info.gid ≠ u32 c.DirectoryGID
      · have heq : ensureDirOwnership c s =
            (.ok (), (s.1.insert c.Directory
              { info with uid := u32 c.DirectoryUID, gid := u32 c.DirectoryGID },
              s.2 ++ [Ev.statEv c.Directory,
                Ev.chownEv c.Directory c.DirectoryUID c.DirectoryGID])) := by
          rw [ensureDirOwnership, if_pos hf, osStat_hit hlk]
          simp only [if_pos hm]
          rw [osChown_hit (show (s.1, s.2 ++ [Ev.statEv c.Directory]).1.lookup
            c.Directory = some info from hlk)]
          simp
        rw [heq]
        refine ⟨⟨[Ev.statEv c.Directory,
          Ev.chownEv c.Directory c.DirectoryUID c.DirectoryGID], rfl,
          by simp [evKindDir]⟩, rfl, rfl, ?_, ?_, by simp⟩
        · intro q hq
          exact FS.lookup_insert_ne _ _ hq
        · intro q e he
          by_cases hqd : q = c.Directory
          · subst hqd
            exact ⟨_, FS.lookup_insert_self _ _ _⟩
          · rw [FS.lookup_insert_ne _ _ hqd]
            exact ⟨e, he⟩
      · have heq : ensureDirOwnership c s =
            (.ok (), (s.1, s.2 ++ [Ev.statEv c.Directory])) := by
          rw [ensureDirOwnership, if_pos hf, osStat_hit hlk]
          simp only [if_neg hm]
        rw [heq]
        exact ⟨⟨[Ev.statEv c.Directory], rfl, by simp [evKindDir]⟩, rfl, rfl,
          fun q _ => rfl, fun q e he => ⟨e, he⟩, by simp⟩
  · have heq : ensureDirOwnership c s = (.ok (), s) := by
      rw [ensureDirOwnership, if_neg hf]
    rw [heq]
    exact ⟨⟨[], by simp, by simp⟩, rfl, rfl, fun q _ => rfl,
      fun q e he => ⟨e, he⟩, by simp⟩

theorem parentConfig_ok {c : Config} (h1 : c.Directory ≠ [])
    (h2 : isAbs c.Directory = true) (h3 : filepathDir c.Directory ≠ c.Directory) :
    c.parentConfig = .ok { c with Directory := filepathDir c.Directory } := by
  rw [Config.parentConfig, if_neg h1, if_neg (by simp [h2])]
  simp [h3]

theorem parentConfig_wtf {c : Config} (h1 : c.Directory ≠ [])
    (h2 : isAbs c.Directory = true) (h3 : filepathDir c.Directory = c.Directory) :
    c.parentConfig = .error wtfMsg := by
  rw [Config.parentConfig, if_neg h1, if_neg (by simp [h2])]
  simp [h3]

theorem ensureAux_inv : ∀ (fuel : Nat) (c : Config) (s : St),
    (∃ t, (ensureDirIfNotExistAux fuel c s).2.2 = s.2 ++ t ∧
      ∀ ev ∈ t, evKindDir ev) ∧
    (ensureDirIfNotExistAux fuel c s).2.1.procUid = s.1.procUid ∧
    (ensureDirIfNotExistAux fuel c s).2.1.procGid = s.1.procGid ∧
    (∀ q, (q = root ∨ c.Directory.length < q.length) →
      (ensureDirIfNotExistAux fuel c s).2.1.lookup q = s.1.lookup q) ∧
    (∀ q e, s.1.lookup q = some e →
      ∃ e', (ensureDirIfNotExistAux fuel c s).2.1.lookup q = some e') := by
  intro fuel
  induction fuel with
  | zero =>
    intro c s
    rw [ensureDirIfNotExistAux]
    exact ⟨⟨[], by simp, by simp⟩, rfl, rfl, fun q _ => rfl, fun q e he => ⟨e, he⟩⟩
  | succ fuel ih =>
    intro c s
    rw [ensureDirIfNotExistAux]
    by_cases h1 : c.Directory = []
    · rw [if_pos h1]
      exact ⟨⟨[], by simp, by simp⟩, rfl, rfl, fun q _ => rfl, fun q e he => ⟨e, he⟩⟩
    rw [if_neg h1]
    by_cases h2 : isAbs c.Directory = false
    · rw [if_pos h2]
      exact ⟨⟨[], by simp, by simp⟩, rfl, rfl, fun q _ => rfl, fun q e he => ⟨e, he⟩⟩
    rw [if_neg h2]
    have habs : isAbs c.Directory = true := isAbs_true_of_not_false h2
    by_cases h3 : c.Directory = root
    · rw [if_pos h3]
      exact ⟨⟨[], by simp, by simp⟩, rfl, rfl, fun q _ => rfl, fun q e he => ⟨e, he⟩⟩
    rw [if_neg h3]
    rcases hlk : s.1.lookup c.Directory with _ | e0
    swap
    · rw [osStat_hit hlk]
      exact ⟨⟨[Ev.statEv c.Directory], rfl, by simp [evKindDir]⟩, rfl, rfl,
        fun q _ => rfl, fun q e he => ⟨e, he⟩⟩
    · rw [osStat_miss hlk]
      have hpdne : filepathDir c.Directory ≠ c.Directory :=
        fun he => h3 (filepathDir_eq_self habs he)
      have hlt : (filepathDir c.Directory).length < c.Directory.length :=
        filepathDir_len_lt habs h3
      simp only [isNotExistE, Bool.true_eq_false, reduceIte, parentConfig_ok h1 habs hpdne]
      obtain ⟨⟨t2, ht2, ht2k⟩, hpu2, hpg2, hpres2, hmono2⟩ :=
        ih { c with Directory := filepathDir c.Directory }
          (s.1, s.2 ++ [Ev.statEv c.Directory])
      rcases hrec : ensureDirIfNotExistAux fuel
          { c with Directory := filepathDir c.Directory }
          (s.1, s.2 ++ [Ev.statEv c.Directory]) with ⟨r2, s2⟩
      rw [hrec] at ht2 hpu2 hpg2 hpres2 hmono2
      simp only at ht2 hpu2 hpg2 hpres2 hmono2
      rcases r2 with ⟨⟩ | e2 | m2
      · -- recursion succeeded: mkdir, then the ownership block
        simp only [hrec]
        have hd2 : s2.1.lookup c.Directory = none := by
          rw [hpres2 c.Directory (Or.inr hlt)]
          exact hlk
        have hkinds : ∀ ev ∈ [Ev.statEv c.Directory] ++ t2 ++ [Ev.mkdirEv c.Directory],
            evKindDir ev := by
          intro ev hev
          rcases List.mem_append.mp hev with hev | hev
          · rcases List.mem_append.mp hev with hev | hev
            · simp at hev; simp [hev, evKindDir]
            · exact ht2k ev hev
          · simp at hev; simp [hev, evKindDir]
        have hqtrans : ∀ q, (q = root ∨ c.Directory.length < q.length) →
            (q = root ∨ (filepathDir c.Directory).length < q.length) := by
          intro q hq
          rcases hq with hq | hq
          · exact Or.inl hq
          · exact Or.inr (by omega)
        rcases hpar : s2.1.lookup (filepathDir c.Directory) with _ | pe
        · rw [osMkdir_noparent hd2 hpar]
          simp only [isExistE, reduceIte]
          refine ⟨⟨[Ev.statEv c.Directory] ++ t2 ++ [Ev.mkdirEv c.Directory],
            by simp [ht2], hkinds⟩, hpu2, hpg2, ?_, ?_⟩
          · intro q hq
            exact hpres2 q (hqtrans q hq)
          · intro q e he
            exact hmono2 q e he
        · rcases hpd : pe.isDir with _ | _
          · rw [osMkdir_parentfile hd2 hpar hpd]
            simp only [isExistE, reduceIte]
            refine ⟨⟨[Ev.statEv c.Directory] ++ t2 ++ [Ev.mkdirEv c.Directory],
              by simp [ht2], hkinds⟩, hpu2, hpg2, ?_, ?_⟩
            · intro q hq
              exact hpres2 q (hqtrans q hq)
            · intro q e he
              exact hmono2 q e he
          · rw [osMkdir_create hd2 hpar hpd]
            simp only [reduceIte]
            obtain ⟨⟨t4, ht4, ht4k⟩, hpu4, hpg4, hpres4, hmono4, _⟩ :=
              ensureDirOwnership_inv c (s2.1.insert c.Directory
                ⟨true, c.getDirectoryMode, s2.1.procUid, s2.1.procGid, []⟩,
                s2.2 ++ [Ev.mkdirEv c.Directory])
            refine ⟨⟨[Ev.statEv c.Directory] ++ t2 ++ [Ev.mkdirEv c.Directory] ++ t4,
              ?_, ?_⟩, ?_, ?_, ?_, ?_⟩
            · rw [ht4]
              simp [ht2]
            · intro ev hev
              rcases List.mem_append.mp hev with hev | hev
              · exact hkinds ev hev
              · exact ht4k ev hev
            · rw [hpu4]
              simp only [FS.insert_procUid]
              exact hpu2
            · rw [hpg4]
              have : (s2.1.insert c.Directory
                  ⟨true, c.getDirectoryMode, s2.1.procUid, s2.1.procGid, []⟩).procGid
                  = s2.1.procGid := rfl
              rw [this]
              exact hpg2
            · intro q hq
              have hqne : q ≠ c.Directory := by
                rcases hq with hq | hq
                · rw [hq]; exact fun he => h3 he.symm
                · intro he; rw [he] at hq; omega
              rw [hpres4 q hqne]
              have hins : (s2.1.insert c.Directory
                  ⟨true, c.getDirectoryMode, s2.1.procUid, s2.1.procGid, []⟩,
                  s2.2 ++ [Ev.mkdirEv c.Directory]).1.lookup q = s2.1.lookup q :=
                FS.lookup_insert_ne _ _ hqne
              rw [hins]
              exact hpres2 q (hqtrans q hq)
            · intro q e he
              obtain ⟨e2, he2⟩ := hmono2 q e he
              have hqne : q ≠ c.Directory := by
                intro heq
                rw [heq, hd2] at he2
                exact absurd he2 (by simp)
              have he3 : (s2.1.insert c.Directory
                  ⟨true, c.getDirectoryMode, s2.1.procUid, s2.1.procGid, []⟩,
                  s2.2 ++ [Ev.mkdirEv c.Directory]).1.lookup q = some e2 := by
                have := FS.lookup_insert_ne s2.1
                  (⟨true, c.getDirectoryMode, s2.1.procUid, s2.1.procGid, []⟩ : FSEntry)
                  hqne
                rw [show (s2.1.insert c.Directory
                  ⟨true, c.getDirectoryMode, s2.1.procUid, s2.1.procGid, []⟩,
                  s2.2 ++ [Ev.mkdirEv c.Directory]).1 = s2.1.insert c.Directory
                  ⟨true, c.getDirectoryMode, s2.1.procUid, s2.1.procGid, []⟩ from rfl,
                  this]
                exact he2
              exact hmono4 q e2 he3
      · -- recursion returned an error: propagated unchanged
        simp only [hrec]
        refine ⟨⟨[Ev.statEv c.Directory] ++ t2, by simp [ht2], ?_⟩,
          hpu2, hpg2, ?_, ?_⟩
        · intro ev hev
          rcases List.mem_append.mp hev with hev | hev
          · simp at hev; simp [hev, evKindDir]
          · exact ht2k ev hev
        · intro q hq
          refine (hpres2 q ?_)
          rcases hq with hq | hq
          · exact Or.inl hq
          · exact Or.inr (by omega)
        · intro q e he
          exact hmono2 q e he
      · -- recursion panicked: propagated unchanged
        simp only [hrec]
        refine ⟨⟨[Ev.statEv c.Directory] ++ t2, by simp [ht2], ?_⟩,
          hpu2, hpg2, ?_, ?_⟩
        · intro ev hev
          rcases List.mem_append.mp hev with hev | hev
          · simp at hev; simp [hev, evKindDir]
          · exact ht2k ev hev
        · intro q hq
          refine (hpres2 q ?_)
          rcases hq with hq | hq
          · exact Or.inl hq
          · exact Or.inr (by omega)
        · intro q e he
          exact hmono2 q e he

theorem ensureAux_root (fuel : Nat) (c : Config) (s : St) (h : c.Directory = root) :
    ensureDirIfNotExistAux (fuel + 1) c s = (.ok (), s) := by
  rw [ensureDirIfNotExistAux, if_neg (by rw [h]; decide),
    if_neg (by rw [h]; decide), if_pos h]

theorem ensureAux_no_fuel_panic : ∀ (fuel : Nat) (c : Config) (s : St),
    c.Directory.length < fuel →
    (ensureDirIfNotExistAux fuel c s).1 ≠ .panicked fuelMsg := by
  intro fuel
  induction fuel with
  | zero =>
    intro c s h
    omega
  | succ fuel ih =>
    intro c s hlen
    rw [ensureDirIfNotExistAux]
    by_cases h1 : c.Directory = []
    · rw [if_pos h1]
      simp [dirEmptyMsg, fuelMsg]
    rw [if_neg h1]
    by_cases h2 : isAbs c.Directory = false
    · rw [if_pos h2]
      simp [dirNotAbsMsg, fuelMsg]
    rw [if_neg h2]
    have habs : isAbs c.Directory = true := isAbs_true_of_not_false h2
    by_cases h3 : c.Directory = root
    · rw [if_pos h3]
      simp
    rw [if_neg h3]
    rcases hlk : s.1.lookup c.Directory with _ | e0
    swap
    · rw [osStat_hit hlk]
      simp
    · rw [osStat_miss hlk]
      have hpdne : filepathDir c.Directory ≠ c.Directory :=
        fun he => h3 (filepathDir_eq_self habs he)
      have hlt : (filepathDir c.Directory).length < c.Directory.length :=
        filepathDir_len_lt habs h3
      simp only [isNotExistE, Bool.true_eq_false, reduceIte,
        parentConfig_ok h1 habs hpdne]
      have hihc := ih { c with Directory := filepathDir c.Directory }
        (s.1, s.2 ++ [Ev.statEv c.Directory]) (by simp; omega)
      rcases hrec : ensureDirIfNotExistAux fuel
          { c with Directory := filepathDir c.Directory }
          (s.1, s.2 ++ [Ev.statEv c.Directory]) with ⟨r2, s2⟩
      rw [hrec] at hihc
      simp only at hihc
      rcases r2 with ⟨⟩ | e2 | m2
      · simp only [hrec]
        have hd2 : s2.1.lookup c.Directory = none := by
          have := (ensureAux_inv fuel { c with Directory := filepathDir c.Directory }
            (s.1, s.2 ++ [Ev.statEv c.Directory])).2.2.2.1 c.Directory (Or.inr (by simp; omega))
          rw [hrec] at this
          simp only at this
          rw [this]
          exact hlk
        rcases hpar : s2.1.lookup (filepathDir c.Directory) with _ | pe
        · rw [osMkdir_noparent hd2 hpar]
          simp only [isExistE, reduceIte]
          simp
        · rcases hpd : pe.isDir with _ | _
          · rw [osMkdir_parentfile hd2 hpar hpd]
            simp only [isExistE, reduceIte]
            simp
          · rw [osMkdir_create hd2 hpar hpd]
            simp only [reduceIte]
            exact (ensureDirOwnership_inv c _).2.2.2.2.2 fuelMsg
      · simp only [hrec]
        simp
      · simp only [hrec]
        exact hihc

/-! ## WriteFile unfolding lemmas -/

theorem writeFileAux_absname {c : Config} (h1 : c.Directory ≠ [])
    (h2 : isAbs c.Directory = true) {name : Path} (h3 : isAbs name = true)
    (fuel : Nat) (op : WriteOp) (s : St) :
    Config.writeFileAux (fuel + 1) c name op s = (.err (.invalidName name), s) := by
  rw [Config.writeFileAux, if_neg h1, if_neg (by simp [h2]), if_pos h3]

theorem writeFileAux_valid {c : Config} (h1 : c.Directory ≠ [])
    (h2 : isAbs c.Directory = true) {name : Path} (h3 : isAbs name = false)
    (fuel : Nat) (op : WriteOp) (s : St) :
    Config.writeFileAux (fuel + 1) c name op s =
      (if filepathDir (filepathJoin c.Directory name) = c.Directory then
        c.writeFileBody name op s
      else if List.isPrefixOf (c.Directory ++ ['/'])
          (filepathDir (filepathJoin c.Directory name)) = false then
        (.err (.invalidName name), s)
      else Config.writeFileAux fuel
        { c with Directory := filepathDir (filepathJoin c.Directory name) }
        (filepathBase (filepathJoin c.Directory name)) op s) := by
  rw [Config.writeFileAux, if_neg h1, if_neg (by simp [h2]), if_neg (by simp [h3])]

/-- A regular file's stat mode never equals a directory mode or-ed with
`ModeDir` (the `ModeDir` bit is missing). -/
theorem file_statMode_ne (e : FSEntry) (hd : e.isDir = false) (m : Nat) :
    statMode e ≠ Nat.lor m modeDir := by
  intro he
  have hlt : e.perm % modeDir < 2 ^ 31 := Nat.mod_lt _ (by rw [modeDir]; norm_num)
  have h1 : (e.perm % modeDir).testBit 31 = false := Nat.testBit_lt_two_pow hlt
  have h2 : (Nat.lor m modeDir).testBit 31 = true := by
    have hq : Nat.lor m modeDir = m ||| modeDir := rfl
    rw [hq, Nat.testBit_or]
    have hm : modeDir.testBit 31 = true := Nat.testBit_two_pow_self
    rw [hm]
    simp
  rw [statMode, if_neg (by simp [hd])] at he
  rw [he] at h1
  rw [h1] at h2
  exact absurd h2 (by simp)

/-- A directory whose permission bits equal the configured mode stats as
exactly the configured mode or-ed with `ModeDir`. -/
theorem dir_statMode_eq {e : FSEntry} (hd : e.isDir = true) {m : Nat}
    (hp : e.perm = m) : statMode e = Nat.lor m modeDir := by
  rw [statMode, if_pos hd, hp]
  exact Nat.or_comm modeDir m

theorem EnsureDirectory_stat_hit {c : Config} (h1 : c.Directory ≠ [])
    (h2 : isAbs c.Directory = true) {s : St} {e : FSEntry}
    (hlk : s.1.lookup c.Directory = some e) :
    c.EnsureDirectory s = ensureDirModeOwner c e (s.1, s.2 ++ [Ev.statEv c.Directory]) := by
  rw [Config.EnsureDirectory, if_neg h1, if_neg (by simp [h2]), osStat_hit hlk]

theorem EnsureDirectory_stat_miss {c : Config} (h1 : c.Directory ≠ [])
    (h2 : isAbs c.Directory = true) {s : St}
    (hlk : s.1.lookup c.Directory = none) :
    c.EnsureDirectory s =
      (match c.EnsureDirectoryIfNotExist (s.1, s.2 ++ [Ev.statEv c.Directory]) with
       | (.ok (), s2) =>
         (match osStat c.Directory s2 with
          | (.ok info, s3) => ensureDirModeOwner c info s3
          | (.error e2, s3) => (.err e2, s3))
       | (.err e1, s2) => (.err e1, s2)
       | (.panicked m, s2) => (.panicked m, s2)) := by
  rw [Config.EnsureDirectory, if_neg h1, if_neg (by simp [h2]), osStat_miss hlk]
  simp only [isNotExistE, Bool.true_eq_false, reduceIte]
  rcases hrec : c.EnsureDirectoryIfNotExist (s.1, s.2 ++ [Ev.statEv c.Directory])
    with ⟨r2, s2⟩
  rcases r2 with ⟨⟩ | e1 | m
  · rcases hst : osStat c.Directory s2 with ⟨r3, s3⟩
    rcases r3 with info | e2 <;> simp [hst]
  · simp
  · simp

/-- On success with a surviving entry at the directory, the mode/ownership
tail leaves that entry's stat mode equal to the configured mode or-ed with
`ModeDir` (when it is a directory), and its owner equal to the configured
owner when enforcement is on. -/
theorem ensureDirModeOwner_ok {c : Config} {info : FSEntry} {s : St}
    {fs1 : FS} {tr1 : List Ev}
    (hlk : s.1.lookup c.Directory = some info)
    (h : ensureDirModeOwner c info s = (.ok (), (fs1, tr1)))
    {en : FSEntry} (h2 : fs1.lookup c.Directory = some en) (h3 : en.isDir = true) :
    statMode en = Nat.lor c.getDirectoryMode modeDir ∧
    (c.EnsureDirectoryOwnership = true →
      en.uid = u32 c.DirectoryUID ∧ en.gid = u32 c.DirectoryGID) := by
  rw [ensureDirModeOwner] at h
  by_cases hmode : statMode info ≠ Nat.lor c.getDirectoryMode modeDir
  · rw [if_pos hmode, osChmod_hit hlk] at h
    simp only at h
    have hlk1 : (s.1.insert c.Directory { info with perm := c.getDirectoryMode }).lookup
        c.Directory = some { info with perm := c.getDirectoryMode } :=
      FS.lookup_insert_self _ _ _
    by_cases hf : c.EnsureDirectoryOwnership = true
    · rw [if_pos hf] at h
      by_cases hu : info.uid ≠ u32 c.DirectoryUID ∨ info.gid ≠ u32 c.DirectoryGID
      · rw [if_pos hu, osChown_hit hlk1] at h
        simp only at h
        injection h with h_r h_s
        injection h_s with hF hT
        rw [← hF, FS.lookup_insert_self] at h2
        injection h2 with h2
        subst h2
        refine ⟨?_, fun _ => ⟨rfl, rfl⟩⟩
        refine dir_statMode_eq ?_ rfl
        exact h3
      · rw [if_neg hu] at h
        injection h with h_r h_s
        injection h_s with hF hT
        rw [← hF, FS.lookup_insert_self] at h2
        injection h2 with h2
        subst h2
        push_neg at hu
        refine ⟨?_, fun _ => ⟨hu.1, hu.2⟩⟩
        refine dir_statMode_eq ?_ rfl
        exact h3
    · rw [if_neg hf] at h
      injection h with h_r h_s
      injection h_s with hF hT
      rw [← hF, FS.lookup_insert_self] at h2
      injection h2 with h2
      subst h2
      refine ⟨?_, fun hff => absurd hff hf⟩
      refine dir_statMode_eq ?_ rfl
      exact h3
  · rw [if_neg hmode] at h
    simp only at h
    push_neg at hmode
    by_cases hf : c.EnsureDirectoryOwnership = true
    · rw [if_pos hf] at h
      by_cases hu : info.uid ≠ u32 c.DirectoryUID ∨ info.gid ≠ u32 c.DirectoryGID
      · rw [if_pos hu, osChown_hit hlk] at h
        simp only at h
        injection h with h_r h_s
        injection h_s with hF hT
        rw [← hF, FS.lookup_insert_self] at h2
        injection h2 with h2
        subst h2
        refine ⟨?_, fun _ => ⟨rfl, rfl⟩⟩
        rw [← hmode]
        rfl
      · rw [if_neg hu] at h
        injection h with h_r h_s
        have hF : s.1 = fs1 := by rw [h_s]
        rw [← hF, hlk] at h2
        injection h2 with h2
        subst h2
        push_neg at hu
        exact ⟨hmode, fun _ => ⟨hu.1, hu.2⟩⟩
    · rw [if_neg hf] at h
      injection h with h_r h_s
      have hF : s.1 = fs1 := by rw [h_s]
      rw [← hF, hlk] at h2
      injection h2 with h2
      subst h2
      exact ⟨hmode, fun hff => absurd hff hf⟩

theorem EnsureDirectory_ok_valid {c : Config} {s : St} {x : St}
    (h : c.EnsureDirectory s = (.ok (), x)) :
    c.Directory ≠ [] ∧ isAbs c.Directory = true := by
  constructor
  · intro he
    rw [Config.EnsureDirectory, if_pos he] at h
    injection h with hr _
    exact absurd hr (by simp)
  · by_contra hne
    have h2f : isAbs c.Directory = false := by
      cases hb : isAbs c.Directory
      · rfl
      · exact absurd hb hne
    have h1 : c.Directory ≠ [] := by
      intro he
      rw [Config.EnsureDirectory, if_pos he] at h
      injection h with hr _
      exact absurd hr (by simp)
    rw [Config.EnsureDirectory, if_neg h1, if_pos h2f] at h
    injection h with hr _
    exact absurd hr (by simp)

/-- A successful `EnsureDirectory` leaves the entry at the directory (when it
is a directory) with exactly the configured stat mode, and with the
configured owner when enforcement is on. -/
theorem EnsureDirectory_ok_inv {c : Config} {fs fs1 : FS} {tr1 : List Ev}
    (h : c.EnsureDirectory (fs, []) = (.ok (), (fs1, tr1)))
    {en : FSEntry} (h2 : fs1.lookup c.Directory = some en) (h3 : en.isDir = true) :
    statMode en = Nat.lor c.getDirectoryMode modeDir ∧
    (c.EnsureDirectoryOwnership = true →
      en.uid = u32 c.DirectoryUID ∧ en.gid = u32 c.DirectoryGID) := by
  obtain ⟨h1, habs⟩ := EnsureDirectory_ok_valid h
  rcases hlk0 : fs.lookup c.Directory with _ | e0
  · rw [EnsureDirectory_stat_miss h1 habs hlk0] at h
    simp only [List.nil_append] at h
    rcases hrec : c.EnsureDirectoryIfNotExist (fs, [Ev.statEv c.Directory])
      with ⟨r2, s2⟩
    rw [hrec] at h
    rcases r2 with u | e1 | m
    · cases u
      simp only at h
      rcases hlk2 : s2.1.lookup c.Directory with _ | info2
      · rw [osStat_miss hlk2] at h
        simp only at h
        injection h with hr _
        exact absurd hr (by simp)
      · rw [osStat_hit hlk2] at h
        simp only at h
        exact @ensureDirModeOwner_ok c info2 (s2.1, s2.2 ++ [Ev.statEv c.Directory])
          fs1 tr1 hlk2 h en h2 h3
    · simp only at h
      injection h with hr _
      exact absurd hr (by simp)
    · simp only at h
      injection h with hr _
      exact absurd hr (by simp)
  · rw [EnsureDirectory_stat_hit h1 habs hlk0] at h
    exact ensureDirModeOwner_ok hlk0 h h2 h3

/-- When the entry at the directory already has the configured stat mode and
owner, `EnsureDirectory` performs only the stat: no mkdir, chmod or chown,
no filesystem change, and it returns success. -/
theorem EnsureDirectory_second_clean {c : Config} {fs1 : FS} {en : FSEntry}
    (h1 : c.Directory ≠ []) (h2 : isAbs c.Directory = true)
    (hlk : fs1.lookup c.Directory = some en)
    (hmode : statMode en = Nat.lor c.getDirectoryMode modeDir)
    (hown : c.EnsureDirectoryOwnership = true →
      en.uid = u32 c.DirectoryUID ∧ en.gid = u32 c.DirectoryGID) :
    c.EnsureDirectory (fs1, []) = (.ok (), (fs1, [Ev.statEv c.Directory])) := by
  rw [EnsureDirectory_stat_hit h1 h2 hlk, ensureDirModeOwner,
    if_neg (show ¬(statMode en ≠ Nat.lor c.getDirectoryMode modeDir) from
      fun hne => hne hmode)]
  simp only
  by_cases hf : c.EnsureDirectoryOwnership = true
  · have hng : ¬(en.uid ≠ u32 c.DirectoryUID ∨ en.gid ≠ u32 c.DirectoryGID) := by
      obtain ⟨hu, hg⟩ := hown hf
      rintro (hne | hne)
      · exact hne hu
      · exact hne hg
    rw [if_pos hf, if_neg hng]
    rfl
  · rw [if_neg hf]
    rfl

/-! ## Temp-file creation lemmas -/

theorem createTemp_first_ok {c : Config} {s s' : St} {p : Path}
    (h : ioutilTempFile c.Directory c.getTempPattern s = (.ok p, s')) :
    c.createTemp s = (.ok p, s') := by
  rw [Config.createTemp, h]

theorem createTemp_first_err {c : Config} {s s' : St} {e : GoErr}
    (h : ioutilTempFile c.Directory c.getTempPattern s = (.error e, s'))
    (hne : isNotExistE e = false) :
    c.createTemp s = (.err e, s') := by
  rw [Config.createTemp, h]
  simp [hne]

theorem createTemp_retry_ok {c : Config} {s s' s'' s3 : St} {e : GoErr} {p : Path}
    (h : ioutilTempFile c.Directory c.getTempPattern s = (.error e, s'))
    (hne : isNotExistE e = true)
    (hens : c.EnsureDirectoryIfNotExist s' = (.ok (), s''))
    (h2 : ioutilTempFile c.Directory c.getTempPattern s'' = (.ok p, s3)) :
    c.createTemp s = (.ok p, s3) := by
  rw [Config.createTemp, h]
  simp only [hne, if_pos]
  rw [hens]
  simp only
  rw [h2]

theorem createTemp_retry_err {c : Config} {s s' s'' s3 : St} {e e2 : GoErr}
    (h : ioutilTempFile c.Directory c.getTempPattern s = (.error e, s'))
    (hne : isNotExistE e = true)
    (hens : c.EnsureDirectoryIfNotExist s' = (.ok (), s''))
    (h2 : ioutilTempFile c.Directory c.getTempPattern s'' = (.error e2, s3)) :
    c.createTemp s = (.err e2, s3) := by
  rw [Config.createTemp, h]
  simp only [hne, if_pos]
  rw [hens]
  simp only
  rw [h2]

theorem createTemp_ensure_err {c : Config} {s s' s'' : St} {e e1 : GoErr}
    (h : ioutilTempFile c.Directory c.getTempPattern s = (.error e, s'))
    (hne : isNotExistE e = true)
    (hens : c.EnsureDirectoryIfNotExist s' = (.err e1, s'')) :
    c.createTemp s = (.err e1, s'') := by
  rw [Config.createTemp, h]
  simp only [hne, if_pos]
  rw [hens]

theorem createTemp_ensure_panic {c : Config} {s s' s'' : St} {e : GoErr} {m : String}
    (h : ioutilTempFile c.Directory c.getTempPattern s = (.error e, s'))
    (hne : isNotExistE e = true)
    (hens : c.EnsureDirectoryIfNotExist s' = (.panicked m, s'')) :
    c.createTemp s = (.panicked m, s'') := by
  rw [Config.createTemp, h]
  simp only [hne, if_pos]
  rw [hens]

theorem clean_ne_nil (p : Path) : clean p ≠ [] := by
  rw [clean]
  by_cases hp : p = []
  · simp [hp]
  · rw [if_neg hp]
    by_cases hr : isAbs p = true
    · simp [hr]
    · have : isAbs p = false := by
        cases hb : isAbs p
        · rfl
        · exact absurd hb hr
      simp only [this]
      by_cases hb : joinComps (cleanParts false [] (splitSlash p)).reverse = []
      · simp [hb]
      · simp [hb]

theorem filepathJoin_ne_nil (a : Path) {b : Path} (hb : b ≠ []) :
    filepathJoin a b ≠ [] := by
  rw [filepathJoin]
  by_cases ha : a = []
  · rw [if_neg (by simp [hb]), if_pos ha]
    exact clean_ne_nil b
  · rw [if_neg (by simp [hb]), if_neg ha, if_neg hb]
    exact clean_ne_nil _

theorem freshLen_pos (fs : FS) : 0 < freshLen fs := by
  rw [freshLen]
  omega

theorem tempNameOf_ne_nil (pat : Path) {L : Nat} (hL : 0 < L) :
    tempNameOf pat L ≠ [] := by
  rw [tempNameOf]
  rcases hsp : splitLastStar pat with _ | ⟨pre, suf⟩
  · intro he
    have := congrArg List.length he
    simp at this
    omega
  · intro he
    have := congrArg List.length he
    simp at this
    omega

/-- Number of temp-file creation attempts recorded in a trace. -/
def countTempTries (t : List Ev) : Nat :=
  t.countP (fun ev => match ev with | .tempTryEv _ => true | _ => false)

theorem countTempTries_append (t u : List Ev) :
    countTempTries (t ++ u) = countTempTries t + countTempTries u := by
  rw [countTempTries, countTempTries, countTempTries, List.countP_append]

theorem countTempTries_dirEvents {t : List Ev} (h : ∀ ev ∈ t, evKindDir ev) :
    countTempTries t = 0 := by
  rw [countTempTries, List.countP_eq_zero]
  intro ev hev
  rcases h ev hev with ⟨p, rfl⟩ | ⟨p, rfl⟩ | ⟨p, u, g, rfl⟩ <;> simp

/-- The entry created for a fresh temp file. -/
def tempEntry (fs : FS) : FSEntry := ⟨false, 0o600, fs.procUid, fs.procGid, []⟩

theorem createTemp_inv (c : Config) (fs : FS) :
    (∀ ev ∈ (c.createTemp (fs, [])).2.2,
      evKindDir ev ∨ (∃ d', ev = Ev.tempTryEv d') ∨
      (∃ tp, ev = Ev.tempCreateEv tp ∧ (c.createTemp (fs, [])).1 = .ok tp)) ∧
    (∀ tp, (c.createTemp (fs, [])).1 = .ok tp →
      (c.createTemp (fs, [])).2.1.lookup tp = some (tempEntry fs) ∧
      fs.lookup tp = none ∧
      tp ≠ [] ∧
      (∀ q, q ≠ tp → (q = root ∨ c.Directory.length < q.length) →
        (c.createTemp (fs, [])).2.1.lookup q = fs.lookup q)) ∧
    countTempTries (c.createTemp (fs, [])).2.2 ≤ 2 := by
  rcases hdir : fs.lookup c.Directory with _ | d
  · -- directory missing: not-exist, ensure, retry once
    have hio1 : ioutilTempFile c.Directory c.getTempPattern (fs, []) =
        (.error (.notExist c.Directory), (fs, [Ev.tempTryEv c.Directory])) := by
      have h0 := @ioutilTempFile_nodir c.Directory c.getTempPattern ((fs, []) : St) hdir
      simpa using h0
    obtain ⟨⟨t2, ht2, ht2k⟩, hpu2, hpg2, hpres2, hmono2⟩ :=
      ensureAux_inv (c.Directory.length + 1) c (fs, [Ev.tempTryEv c.Directory])
    rcases hrec : c.EnsureDirectoryIfNotExist (fs, [Ev.tempTryEv c.Directory])
      with ⟨r2, s2⟩
    rw [Config.EnsureDirectoryIfNotExist] at hrec
    rw [hrec] at ht2 hpu2 hpg2 hpres2 hmono2
    simp only at ht2 hpu2 hpg2 hpres2 hmono2
    have hrec' : c.EnsureDirectoryIfNotExist (fs, [Ev.tempTryEv c.Directory]) =
        (r2, s2) := by
      rw [Config.EnsureDirectoryIfNotExist]
      exact hrec
    rcases r2 with u | e1 | m
    · cases u
      rcases hdir2 : s2.1.lookup c.Directory with _ | d2
      · have hio2 : ioutilTempFile c.Directory c.getTempPattern s2 =
            (.error (.notExist c.Directory), (s2.1, s2.2 ++ [Ev.tempTryEv c.Directory])) :=
          ioutilTempFile_nodir hdir2
        have heq := createTemp_retry_err hio1 rfl hrec' hio2
        rw [heq]
        refine ⟨?_, ?_, ?_⟩
        · intro ev hev
          simp only at hev
          rw [ht2] at hev
          rcases List.mem_append.mp hev with hev | hev
          · rcases List.mem_append.mp hev with hev | hev
            · simp at hev
              exact Or.inr (Or.inl ⟨_, hev⟩)
            · exact Or.inl (ht2k ev hev)
          · simp at hev
            exact Or.inr (Or.inl ⟨_, hev⟩)
        · intro tp htp
          exact absurd htp (by simp)
        · simp only
          rw [ht2, countTempTries_append, countTempTries_append,
            countTempTries_dirEvents ht2k]
          simp [countTempTries]
      · rcases hd2 : d2.isDir with _ | _
        · have hio2 : ioutilTempFile c.Directory c.getTempPattern s2 =
              (.error (.notDir c.Directory), (s2.1, s2.2 ++ [Ev.tempTryEv c.Directory])) :=
            ioutilTempFile_filedir hdir2 hd2
          have heq := createTemp_retry_err hio1 rfl hrec' hio2
          rw [heq]
          refine ⟨?_, ?_, ?_⟩
          · intro ev hev
            simp only at hev
            rw [ht2] at hev
            rcases List.mem_append.mp hev with hev | hev
            · rcases List.mem_append.mp hev with hev | hev
              · simp at hev
                exact Or.inr (Or.inl ⟨_, hev⟩)
              · exact Or.inl (ht2k ev hev)
            · simp at hev
              exact Or.inr (Or.inl ⟨_, hev⟩)
          · intro tp htp
            exact absurd htp (by simp)
          · simp only
            rw [ht2, countTempTries_append, countTempTries_append,
              countTempTries_dirEvents ht2k]
            simp [countTempTries]
        · rcases hcand2 : s2.1.lookup
              (filepathJoin c.Directory (tempNameOf c.getTempPattern (freshLen s2.1)))
            with _ | ex
          swap
          · have hio2 := ioutilTempFile_collide hdir2 hd2 hcand2
            have heq := createTemp_retry_err hio1 rfl hrec' hio2
            rw [heq]
            refine ⟨?_, ?_, ?_⟩
            · intro ev hev
              simp only at hev
              rw [ht2] at hev
              rcases List.mem_append.mp hev with hev | hev
              · rcases List.mem_append.mp hev with hev | hev
                · simp at hev
                  exact Or.inr (Or.inl ⟨_, hev⟩)
                · exact Or.inl (ht2k ev hev)
              · simp at hev
                exact Or.inr (Or.inl ⟨_, hev⟩)
            · intro tp htp
              exact absurd htp (by simp)
            · simp only
              rw [ht2, countTempTries_append, countTempTries_append,
                countTempTries_dirEvents ht2k]
              simp [countTempTries]
          · have hio2 := ioutilTempFile_create hdir2 hd2 hcand2
            have heq := createTemp_retry_ok hio1 rfl hrec' hio2
            rw [heq]
            refine ⟨?_, ?_, ?_⟩
            · intro ev hev
              simp only at hev
              rw [ht2] at hev
              rcases List.mem_append.mp hev with hev | hev
              · rcases List.mem_append.mp hev with hev | hev
                · simp at hev
                  exact Or.inr (Or.inl ⟨_, hev⟩)
                · exact Or.inl (ht2k ev hev)
              · simp at hev
                rcases hev with hev | hev
                · exact Or.inr (Or.inl ⟨_, hev⟩)
                · exact Or.inr (Or.inr ⟨_, hev, rfl⟩)
            · intro tp htp
              simp only at htp
              injection htp with htp
              subst htp
              refine ⟨?_, ?_, filepathJoin_ne_nil _ (tempNameOf_ne_nil _ (freshLen_pos _)), ?_⟩
              · simp only
                rw [FS.lookup_insert_self]
                rw [tempEntry, hpu2, hpg2]
              · rcases hpre : fs.lookup
                    (filepathJoin c.Directory (tempNameOf c.getTempPattern (freshLen s2.1)))
                  with _ | epre
                · rfl
                · obtain ⟨e', he'⟩ := hmono2 _ epre hpre
                  rw [hcand2] at he'
                  exact absurd he' (by simp)
              · intro q hq hcond
                simp only
                rw [FS.lookup_insert_ne _ _ hq]
                exact hpres2 q hcond
            · simp only
              rw [ht2]
              rw [show ([Ev.tempTryEv c.Directory] ++ t2) ++
                  [Ev.tempTryEv c.Directory,
                    Ev.tempCreateEv (filepathJoin c.Directory
                      (tempNameOf c.getTempPattern (freshLen s2.1)))] =
                  [Ev.tempTryEv c.Directory] ++ t2 ++
                  ([Ev.tempTryEv c.Directory] ++
                    [Ev.tempCreateEv (filepathJoin c.Directory
                      (tempNameOf c.getTempPattern (freshLen s2.1)))]) by simp]
              rw [countTempTries_append, countTempTries_append,
                countTempTries_append, countTempTries_dirEvents ht2k]
              simp [countTempTries]
    · have heq := createTemp_ensure_err hio1 rfl hrec'
      rw [heq]
      refine ⟨?_, ?_, ?_⟩
      · intro ev hev
        simp only at hev
        rw [ht2] at hev
        rcases List.mem_append.mp hev with hev | hev
        · simp at hev
          exact Or.inr (Or.inl ⟨_, hev⟩)
        · exact Or.inl (ht2k ev hev)
      · intro tp htp
        exact absurd htp (by simp)
      · simp only
        rw [ht2, countTempTries_append, countTempTries_dirEvents ht2k]
        simp [countTempTries]
    · have heq := createTemp_ensure_panic hio1 rfl hrec'
      rw [heq]
      refine ⟨?_, ?_, ?_⟩
      · intro ev hev
        simp only at hev
        rw [ht2] at hev
        rcases List.mem_append.mp hev with hev | hev
        · simp at hev
          exact Or.inr (Or.inl ⟨_, hev⟩)
        · exact Or.inl (ht2k ev hev)
      · intro tp htp
        exact absurd htp (by simp)
      · simp only
        rw [ht2, countTempTries_append, countTempTries_dirEvents ht2k]
        simp [countTempTries]
  · rcases hd : d.isDir with _ | _
    · have hio1 : ioutilTempFile c.Directory c.getTempPattern (fs, []) =
          (.error (.notDir c.Directory), (fs, [Ev.tempTryEv c.Directory])) := by
        have h0 := @ioutilTempFile_filedir c.Directory c.getTempPattern ((fs, []) : St) d hdir hd
        simpa using h0
      have heq := createTemp_first_err hio1 rfl
      rw [heq]
      refine ⟨?_, ?_, ?_⟩
      · intro ev hev
        simp only at hev
        simp at hev
        exact Or.inr (Or.inl ⟨_, hev⟩)
      · intro tp htp
        exact absurd htp (by simp)
      · simp [countTempTries]
    · rcases hcand : fs.lookup
          (filepathJoin c.Directory (tempNameOf c.getTempPattern (freshLen fs)))
        with _ | ex
      swap
      · have hio1 := @ioutilTempFile_collide c.Directory c.getTempPattern ((fs, []) : St) d ex hdir hd hcand
        have heq := createTemp_first_err hio1 rfl
        rw [heq]
        refine ⟨?_, ?_, ?_⟩
        · intro ev hev
          simp only at hev
          simp at hev
          exact Or.inr (Or.inl ⟨_, hev⟩)
        · intro tp htp
          exact absurd htp (by simp)
        · simp [countTempTries]
      · have hio1 := @ioutilTempFile_create c.Directory c.getTempPattern ((fs, []) : St) d hdir hd hcand
        have heq := createTemp_first_ok hio1
        rw [heq]
        refine ⟨?_, ?_, ?_⟩
        · intro ev hev
          simp only at hev
          simp at hev
          rcases hev with hev | hev
          · exact Or.inr (Or.inl ⟨_, hev⟩)
          · exact Or.inr (Or.inr ⟨_, hev, rfl⟩)
        · intro tp htp
          simp only at htp
          injection htp with htp
          subst htp
          refine ⟨?_, hcand,
            filepathJoin_ne_nil _ (tempNameOf_ne_nil _ (freshLen_pos _)), ?_⟩
          · simp only
            rw [FS.lookup_insert_self]
            rfl
          · intro q hq _
            simp only
            rw [FS.lookup_insert_ne _ _ hq]
        · simp [countTempTries]

/-! ## Deferred-cleanup lemmas -/

theorem osRemove_notEmpty {p : Path} {s : St} {e : FSEntry}
    (hlk : s.1.lookup p = some e) (hd : e.isDir = true)
    (hch : s.1.hasChild p = true) :
    osRemove p s = (some (.notEmpty p), (s.1, s.2 ++ [Ev.removeEv p])) := by
  rw [osRemove, emit]
  simp only [hlk, hd, hch]
  rfl

theorem writeDeferRun_none (res : Outcome Unit) (s : St) :
    writeDeferRun res ⟨none, []⟩ s = (res, s) := by
  rw [writeDeferRun]
  simp

theorem writeDeferRun_close_remove {tp : Path} (htp : tp ≠ []) {fs : FS}
    (tr : List Ev) {e : FSEntry} (hlk : fs.lookup tp = some e)
    (hd : e.isDir = false) (res : Outcome Unit) :
    writeDeferRun res ⟨some tp, tp⟩ (fs, tr) =
      (res, (fs.erase tp, tr ++ [Ev.closeEv tp, Ev.removeEv tp])) := by
  have h0 : ((fs, tr ++ [Ev.closeEv tp]) : St).1.lookup tp = some e := hlk
  have h1 : osRemove tp (fs, tr ++ [Ev.closeEv tp]) =
      (none, (fs.erase tp, (tr ++ [Ev.closeEv tp]) ++ [Ev.removeEv tp])) :=
    osRemove_file h0 hd
  rw [writeDeferRun]
  simp only [emit, if_pos htp, h1]
  simp

theorem writeDeferRun_remove_only {tp : Path} (htp : tp ≠ []) {fs : FS}
    (tr : List Ev) {e : FSEntry} (hlk : fs.lookup tp = some e)
    (hd : e.isDir = false) (res : Outcome Unit) :
    writeDeferRun res ⟨none, tp⟩ (fs, tr) =
      (res, (fs.erase tp, tr ++ [Ev.removeEv tp])) := by
  have h0 : ((fs, tr) : St).1.lookup tp = some e := hlk
  have h1 : osRemove tp (fs, tr) = (none, (fs.erase tp, tr ++ [Ev.removeEv tp])) :=
    osRemove_file h0 hd
  rw [writeDeferRun]
  simp only [if_pos htp, h1]

/-- A missing temp file at cleanup time is benign: the operation's own
result is returned unchanged. -/
theorem writeDeferRun_benign {res : Outcome Unit} {b : DeferSt} {s : St}
    (htmp : b.tmpName ≠ []) (hlk : s.1.lookup b.tmpName = none) :
    (writeDeferRun res b s).1 = res := by
  rw [writeDeferRun]
  rcases b with ⟨fo, tmp⟩
  simp only at htmp hlk
  rcases fo with _ | p
  · have h1 : osRemove tmp s = (some (.notExist tmp), (s.1, s.2 ++ [Ev.removeEv tmp])) :=
      osRemove_miss hlk
    simp only [if_pos htmp, h1]
    rfl
  · have h1 : osRemove tmp (s.1, s.2 ++ [Ev.closeEv p]) =
        (some (.notExist tmp), (s.1, (s.2 ++ [Ev.closeEv p]) ++ [Ev.removeEv tmp])) :=
      osRemove_miss hlk
    simp only [emit, if_pos htmp, h1]
    rfl

/-- A cleanup removal failure that is not a not-exist error escalates to a
panic. -/
theorem writeDeferRun_escalate {res : Outcome Unit} {b : DeferSt} {s : St}
    {e : FSEntry} (htmp : b.tmpName ≠ [])
    (hlk : s.1.lookup b.tmpName = some e) (hd : e.isDir = true)
    (hch : s.1.hasChild b.tmpName = true) :
    (writeDeferRun res b s).1 = .panicked removePanicMsg := by
  rw [writeDeferRun]
  rcases b with ⟨fo, tmp⟩
  simp only at htmp hlk hch
  rcases fo with _ | p
  · have h1 : osRemove tmp s = (some (.notEmpty tmp), (s.1, s.2 ++ [Ev.removeEv tmp])) :=
      osRemove_notEmpty hlk hd hch
    simp only [if_pos htmp, h1]
    rfl
  · have h1 : osRemove tmp (s.1, s.2 ++ [Ev.closeEv p]) =
        (some (.notEmpty tmp), (s.1, (s.2 ++ [Ev.closeEv p]) ++ [Ev.removeEv tmp])) :=
      osRemove_notEmpty hlk hd hch
    simp only [emit, if_pos htmp, h1]
    rfl

/-! ## Rename equations -/

theorem osRename_replace {fs : FS} (tr : List Ev) {old new : Path} {e t : FSEntry}
    (hold : fs.lookup old = some e) (ht : fs.lookup new = some t)
    (htd : t.isDir = false) :
    osRename old new (fs, tr) =
      (none, ((fs.erase old).insert new e, tr ++ [Ev.renameEv old new])) := by
  rw [osRename]
  simp only [hold, ht, htd, emit]
  rfl

theorem osRename_targetdir {fs : FS} (tr : List Ev) {old new : Path} {e t : FSEntry}
    (hold : fs.lookup old = some e) (ht : fs.lookup new = some t)
    (htd : t.isDir = true) :
    osRename old new (fs, tr) = (some (.notDir new), (fs, tr)) := by
  rw [osRename]
  simp only [hold, ht, htd]
  rfl

theorem osRename_fresh {fs : FS} (tr : List Ev) {old new : Path} {e pe : FSEntry}
    (hold : fs.lookup old = some e) (hnew : fs.lookup new = none)
    (hpar : fs.lookup (filepathDir new) = some pe) (hpd : pe.isDir = true) :
    osRename old new (fs, tr) =
      (none, ((fs.erase old).insert new e, tr ++ [Ev.renameEv old new])) := by
  rw [osRename]
  simp only [hold, hnew, hpar, hpd, emit]
  rfl

theorem osRename_parentfile {fs : FS} (tr : List Ev) {old new : Path} {e pe : FSEntry}
    (hold : fs.lookup old = some e) (hnew : fs.lookup new = none)
    (hpar : fs.lookup (filepathDir new) = some pe) (hpd : pe.isDir = false) :
    osRename old new (fs, tr) = (some (.notDir new), (fs, tr)) := by
  rw [osRename]
  simp only [hold, hnew, hpar, hpd]
  rfl

theorem osRename_noparent {fs : FS} (tr : List Ev) {old new : Path} {e : FSEntry}
    (hold : fs.lookup old = some e) (hnew : fs.lookup new = none)
    (hpar : fs.lookup (filepathDir new) = none) :
    osRename old new (fs, tr) = (some (.notExist new), (fs, tr)) := by
  rw [osRename]
  simp only [hold, hnew, hpar]

/-! ## Optional chmod/chown step lemmas -/

theorem optChmod (cond : Prop) [Decidable cond] (m : Nat) {tp : Path} {fs : FS}
    (tr : List Ev) {e : FSEntry} (hlk : fs.lookup tp = some e) :
    ∃ e' fs' u, (if cond then osChmod tp m (fs, tr) else (none, (fs, tr))) =
        ((none : Option GoErr), (fs', tr ++ u)) ∧
      fs'.lookup tp = some e' ∧ e'.isDir = e.isDir ∧
      (∀ q, q ≠ tp → fs'.lookup q = fs.lookup q) ∧
      (∀ ev ∈ u, ∃ pp mm, ev = Ev.chmodEv pp mm) := by
  have h0 : ((fs, tr) : St).1.lookup tp = some e := hlk
  by_cases hc : cond
  · refine ⟨{ e with perm := m }, fs.insert tp { e with perm := m },
      [Ev.chmodEv tp m], ?_, FS.lookup_insert_self _ _ _, rfl,
      fun q hq => FS.lookup_insert_ne _ _ hq, by simp⟩
    rw [if_pos hc, osChmod_hit h0]
  · refine ⟨e, fs, [], ?_, hlk, rfl, fun q _ => rfl, by simp⟩
    rw [if_neg hc]
    simp

theorem optOwn (cond1 cond2 : Prop) [Decidable cond1] [Decidable cond2]
    (u g : Nat) {tp : Path} {fs : FS} (tr : List Ev) {e : FSEntry}
    (hlk : fs.lookup tp = some e) :
    ∃ e' fs' w, (if cond1 then
        (if cond2 then osChown tp u g (fs, tr) else (none, (fs, tr)))
        else (none, (fs, tr))) = ((none : Option GoErr), (fs', tr ++ w)) ∧
      fs'.lookup tp = some e' ∧ e'.isDir = e.isDir ∧
      (∀ q, q ≠ tp → fs'.lookup q = fs.lookup q) ∧
      (∀ ev ∈ w, ∃ pp uu gg, ev = Ev.chownEv pp uu gg) := by
  have h0 : ((fs, tr) : St).1.lookup tp = some e := hlk
  by_cases h1 : cond1
  · by_cases h2 : cond2
    · refine ⟨{ e with uid := u32 u, gid := u32 g },
        fs.insert tp { e with uid := u32 u, gid := u32 g },
        [Ev.chownEv tp u g], ?_, FS.lookup_insert_self _ _ _, rfl,
        fun q hq => FS.lookup_insert_ne _ _ hq, by simp⟩
      rw [if_pos h1, if_pos h2, osChown_hit h0]
    · refine ⟨e, fs, [], ?_, hlk, rfl, fun q _ => rfl, by simp⟩
      rw [if_pos h1, if_neg h2]
      simp
  · refine ⟨e, fs, [], ?_, hlk, rfl, fun q _ => rfl, by simp⟩
    rw [if_neg h1]
    simp

/-- Complete inversion of the temp-file body (writefile.go lines 179-251):
behaviour on a callback error, cleanup of every created temp file, and the
bound on temp-creation attempts. -/
theorem writeFileBody_inv (c : Config) (name : Path) (op : WriteOp) (fs : FS) :
    (∀ e, op.err = some e →
      ∀ p, Ev.opCallEv p ∈ (c.writeFileBody name op (fs, [])).2.2 →
        (c.writeFileBody name op (fs, [])).1 = .err e ∧
        (∀ a b, Ev.renameEv a b ∉ (c.writeFileBody name op (fs, [])).2.2) ∧
        fs.lookup p = none ∧
        (c.writeFileBody name op (fs, [])).2.1.lookup p = none ∧
        (∀ q, q ≠ p → (q = root ∨ c.Directory.length < q.length) →
          (c.writeFileBody name op (fs, [])).2.1.lookup q = fs.lookup q)) ∧
    (∀ p, Ev.tempCreateEv p ∈ (c.writeFileBody name op (fs, [])).2.2 →
      Ev.closeEv p ∈ (c.writeFileBody name op (fs, [])).2.2 ∧
      (Ev.removeEv p ∈ (c.writeFileBody name op (fs, [])).2.2 ∨
        ∃ b, Ev.renameEv p b ∈ (c.writeFileBody name op (fs, [])).2.2)) ∧
    countTempTries (c.writeFileBody name op (fs, [])).2.2 ≤ 2 := by
  obtain ⟨htr, hok, hcnt⟩ := createTemp_inv c fs
  rcases hct : c.createTemp (fs, []) with ⟨rct, s1⟩
  rw [hct] at htr hok hcnt
  simp only at htr hok hcnt
  rcases rct with tp | ect | mct
  · -- temp file created
    obtain ⟨hlkt, hfresh, htpne, hpres⟩ := hok tp rfl
    have hfst : osFstat tp s1 =
        (.ok (tempEntry fs), (s1.1, s1.2 ++ [Ev.statEv tp])) := osFstat_hit hlkt
    obtain ⟨e1, fs2, u2, hstep2, hlk2, hd2, hq2, hev2⟩ :=
      optChmod (statMode (tempEntry fs) ≠ c.getFileMode) c.getFileMode
        (s1.2 ++ [Ev.statEv tp]) hlkt
    obtain ⟨e2, fs3, w3, hstep3, hlk3, hd3, hq3, hev3⟩ :=
      optOwn (c.EnsureFileOwnership = true)
        ((tempEntry fs).uid ≠ u32 c.FileUID ∨ (tempEntry fs).gid ≠ u32 c.FileGID)
        c.FileUID c.FileGID ((s1.2 ++ [Ev.statEv tp]) ++ u2) hlk2
    have hsc : FS.setContent fs3 tp op.content =
        fs3.insert tp { e2 with content := op.content } := by
      rw [FS.setContent, hlk3]
    have hlk4 : (fs3.insert tp { e2 with content := op.content }).lookup tp =
        some { e2 with content := op.content } := FS.lookup_insert_self _ _ _
    have hd4 : ({ e2 with content := op.content } : FSEntry).isDir = false := by
      show e2.isDir = false
      rw [hd3, hd2]
      rfl
    have hs1no : ∀ ev ∈ s1.2, (∃ q, ev = Ev.statEv q) ∨ (∃ q, ev = Ev.mkdirEv q) ∨
        (∃ q u g, ev = Ev.chownEv q u g) ∨ (∃ q, ev = Ev.tempTryEv q) ∨
        ev = Ev.tempCreateEv tp := by
      intro ev hev
      rcases htr ev hev with hk | ⟨d', he⟩ | ⟨tp', he, hres⟩
      · rcases hk with h | h | h
        · exact Or.inl h
        · exact Or.inr (Or.inl h)
        · exact Or.inr (Or.inr (Or.inl h))
      · exact Or.inr (Or.inr (Or.inr (Or.inl ⟨d', he⟩)))
      · refine Or.inr (Or.inr (Or.inr (Or.inr ?_)))
        injection hres with h2
        rw [he, h2]
    have hs1noop : ∀ p, Ev.opCallEv p ∉ s1.2 := by
      intro p hp
      rcases hs1no _ hp with ⟨q, h⟩ | ⟨q, h⟩ | ⟨q, u, g, h⟩ | ⟨q, h⟩ | h <;> simp at h
    have hs1norn : ∀ a b, Ev.renameEv a b ∉ s1.2 := by
      intro a b hab
      rcases hs1no _ hab with ⟨q, h⟩ | ⟨q, h⟩ | ⟨q, u, g, h⟩ | ⟨q, h⟩ | h <;> simp at h
    have hs1tc : ∀ p, Ev.tempCreateEv p ∈ s1.2 → p = tp := by
      intro p hp
      rcases hs1no _ hp with ⟨q, h⟩ | ⟨q, h⟩ | ⟨q, u, g, h⟩ | ⟨q, h⟩ | h
      · simp at h
      · simp at h
      · simp at h
      · simp at h
      · simp at h
        exact h
    have hu2c : countTempTries u2 = 0 := by
      rw [countTempTries, List.countP_eq_zero]
      intro ev hev
      obtain ⟨pp, mm, rfl⟩ := hev2 ev hev
      simp
    have hw3c : countTempTries w3 = 0 := by
      rw [countTempTries, List.countP_eq_zero]
      intro ev hev
      obtain ⟨pp, uu, gg, rfl⟩ := hev3 ev hev
      simp
    have hc1 : countTempTries [Ev.statEv tp] = 0 := by simp [countTempTries]
    have hc2 : countTempTries [Ev.opCallEv tp] = 0 := by simp [countTempTries]
    have hc3 : countTempTries [Ev.closeEv tp] = 0 := by simp [countTempTries]
    have hc4 : countTempTries [Ev.removeEv tp] = 0 := by simp [countTempTries]
    rcases hope : op.err with _ | e
    · -- callback succeeded: close, rename, and clean up
      rcases htgt : (fs3.insert tp { e2 with content := op.content }).lookup
          (pathJoin c.Directory name) with _ | t
      · rcases hpar : (fs3.insert tp { e2 with content := op.content }).lookup
            (filepathDir (pathJoin c.Directory name)) with _ | pe
        · -- rename fails: target parent missing
          have heqB : c.writeFileBody name op (fs, []) =
              (.err (.notExist (pathJoin c.Directory name)),
               ((fs3.insert tp { e2 with content := op.content }).erase tp,
                (((((s1.2 ++ [Ev.statEv tp]) ++ u2) ++ w3) ++ [Ev.opCallEv tp]) ++
                  [Ev.closeEv tp]) ++ [Ev.removeEv tp])) := by
            rw [Config.writeFileBody, hct]
            simp only
            rw [hfst]
            simp only
            rw [hstep2]
            simp only
            rw [hstep3]
            simp only [emit]
            rw [hsc, hope]
            simp only [emit]
            rw [osRename_noparent _ hlk4 htgt hpar]
            simp only
            rw [writeDeferRun_remove_only htpne _ hlk4 hd4]
          simp only [heqB]
          refine ⟨?_, ?_, ?_⟩
          · intro e' he'
            simp at he'
          · intro p hp
            have hp2 : p = tp := by
              simp at hp
              rcases hp with h | h | h
              · exact hs1tc p h
              · obtain ⟨pp, mm, hh⟩ := hev2 _ h
                simp at hh
              · obtain ⟨pp, uu, gg, hh⟩ := hev3 _ h
                simp at hh
            subst hp2
            constructor
            · simp
            · left
              simp
          · simp only [countTempTries_append]
            omega
        · rcases hpd : pe.isDir with _ | _
          · -- rename fails: target parent is a regular file
            have heqB : c.writeFileBody name op (fs, []) =
                (.err (.notDir (pathJoin c.Directory name)),
                 ((fs3.insert tp { e2 with content := op.content }).erase tp,
                  (((((s1.2 ++ [Ev.statEv tp]) ++ u2) ++ w3) ++ [Ev.opCallEv tp]) ++
                    [Ev.closeEv tp]) ++ [Ev.removeEv tp])) := by
              rw [Config.writeFileBody, hct]
              simp only
              rw [hfst]
              simp only
              rw [hstep2]
              simp only
              rw [hstep3]
              simp only [emit]
              rw [hsc, hope]
              simp only [emit]
              rw [osRename_parentfile _ hlk4 htgt hpar hpd]
              simp only
              rw [writeDeferRun_remove_only htpne _ hlk4 hd4]
            simp only [heqB]
            refine ⟨?_, ?_, ?_⟩
            · intro e' he'
              simp at he'
            · intro p hp
              have hp2 : p = tp := by
                simp at hp
                rcases hp with h | h | h
                · exact hs1tc p h
                · obtain ⟨pp, mm, hh⟩ := hev2 _ h
                  simp at hh
                · obtain ⟨pp, uu, gg, hh⟩ := hev3 _ h
                  simp at hh
              subst hp2
              constructor
              · simp
              · left
                simp
            · simp only [countTempTries_append]
              omega
          · -- rename succeeds into an existing parent directory
            have heqB : c.writeFileBody name op (fs, []) =
                (.ok (),
                 (((fs3.insert tp { e2 with content := op.content }).erase tp).insert
                    (pathJoin c.Directory name) { e2 with content := op.content },
                  ((((((s1.2 ++ [Ev.statEv tp]) ++ u2) ++ w3) ++ [Ev.opCallEv tp]) ++
                    [Ev.closeEv tp]) ++
                    [Ev.renameEv tp (pathJoin c.Directory name)]))) := by
              rw [Config.writeFileBody, hct]
              simp only
              rw [hfst]
              simp only
              rw [hstep2]
              simp only
              rw [hstep3]
              simp only [emit]
              rw [hsc, hope]
              simp only [emit]
              rw [osRename_fresh _ hlk4 htgt hpar hpd]
              simp only
              rw [writeDeferRun_none]
            simp only [heqB]
            refine ⟨?_, ?_, ?_⟩
            · intro e' he'
              simp at he'
            · intro p hp
              have hp2 : p = tp := by
                simp at hp
                rcases hp with h | h | h
                · exact hs1tc p h
                · obtain ⟨pp, mm, hh⟩ := hev2 _ h
                  simp at hh
                · obtain ⟨pp, uu, gg, hh⟩ := hev3 _ h
                  simp at hh
              subst hp2
              constructor
              · simp
              · right
                exact ⟨pathJoin c.Directory name, by simp⟩
            · simp only [countTempTries_append]
              have hc5 : countTempTries [Ev.renameEv tp (pathJoin c.Directory name)] = 0 := by
                simp [countTempTries]
              omega
      · rcases htd : t.isDir with _ | _
        · -- rename succeeds, replacing an existing file target
          have heqB : c.writeFileBody name op (fs, []) =
              (.ok (),
               (((fs3.insert tp { e2 with content := op.content }).erase tp).insert
                  (pathJoin c.Directory name) { e2 with content := op.content },
                ((((((s1.2 ++ [Ev.statEv tp]) ++ u2) ++ w3) ++ [Ev.opCallEv tp]) ++
                  [Ev.closeEv tp]) ++
                  [Ev.renameEv tp (pathJoin c.Directory name)]))) := by
            rw [Config.writeFileBody, hct]
            simp only
            rw [hfst]
            simp only
            rw [hstep2]
            simp only
            rw [hstep3]
            simp only [emit]
            rw [hsc, hope]
            simp only [emit]
            rw [osRename_replace _ hlk4 htgt htd]
            simp only
            rw [writeDeferRun_none]
          simp only [heqB]
          refine ⟨?_, ?_, ?_⟩
          · intro e' he'
            simp at he'
          · intro p hp
            have hp2 : p = tp := by
              simp at hp
              rcases hp with h | h | h
              · exact hs1tc p h
              · obtain ⟨pp, mm, hh⟩ := hev2 _ h
                simp at hh
              · obtain ⟨pp, uu, gg, hh⟩ := hev3 _ h
                simp at hh
            subst hp2
            constructor
            · simp
            · right
              exact ⟨pathJoin c.Directory name, by simp⟩
          · simp only [countTempTries_append]
            have hc5 : countTempTries [Ev.renameEv tp (pathJoin c.Directory name)] = 0 := by
              simp [countTempTries]
            omega
        · -- rename fails: target is an existing directory
          have heqB : c.writeFileBody name op (fs, []) =
              (.err (.notDir (pathJoin c.Directory name)),
               ((fs3.insert tp { e2 with content := op.content }).erase tp,
                (((((s1.2 ++ [Ev.statEv tp]) ++ u2) ++ w3) ++ [Ev.opCallEv tp]) ++
                  [Ev.closeEv tp]) ++ [Ev.removeEv tp])) := by
            rw [Config.writeFileBody, hct]
            simp only
            rw [hfst]
            simp only
            rw [hstep2]
            simp only
            rw [hstep3]
            simp only [emit]
            rw [hsc, hope]
            simp only [emit]
            rw [osRename_targetdir _ hlk4 htgt htd]
            simp only
            rw [writeDeferRun_remove_only htpne _ hlk4 hd4]
          simp only [heqB]
          refine ⟨?_, ?_, ?_⟩
          · intro e' he'
            simp at he'
          · intro p hp
            have hp2 : p = tp := by
              simp at hp
              rcases hp with h | h | h
              · exact hs1tc p h
              · obtain ⟨pp, mm, hh⟩ := hev2 _ h
                simp at hh
              · obtain ⟨pp, uu, gg, hh⟩ := hev3 _ h
                simp at hh
            subst hp2
            constructor
            · simp
            · left
              simp
          · simp only [countTempTries_append]
            omega
    · -- callback failed: temp file closed and removed, error returned
      have heqB : c.writeFileBody name op (fs, []) =
          (.err e,
           ((fs3.insert tp { e2 with content := op.content }).erase tp,
            ((((s1.2 ++ [Ev.statEv tp]) ++ u2) ++ w3) ++ [Ev.opCallEv tp]) ++
              [Ev.closeEv tp, Ev.removeEv tp])) := by
        rw [Config.writeFileBody, hct]
        simp only
        rw [hfst]
        simp only
        rw [hstep2]
        simp only
        rw [hstep3]
        simp only [emit]
        rw [hsc, hope]
        simp only
        rw [writeDeferRun_close_remove htpne _ hlk4 hd4]
      simp only [heqB]
      refine ⟨?_, ?_, ?_⟩
      · intro e' he' p hp
        injection he' with he2
        subst he2
        have hp2 : p = tp := by
          simp at hp
          rcases hp with h | h | h | h
          · exact absurd h (hs1noop p)
          · obtain ⟨pp, mm, hh⟩ := hev2 _ h
            simp at hh
          · obtain ⟨pp, uu, gg, hh⟩ := hev3 _ h
            simp at hh
          · exact h
        subst hp2
        refine ⟨rfl, ?_, hfresh, ?_, ?_⟩
        · intro a b hab
          simp at hab
          rcases hab with h | h | h
          · exact hs1norn a b h
          · obtain ⟨pp, mm, hh⟩ := hev2 _ h
            simp at hh
          · obtain ⟨pp, uu, gg, hh⟩ := hev3 _ h
            simp at hh
        · exact FS.lookup_erase_self _ _
        · intro q hq hqc
          rw [FS.lookup_erase_ne _ hq, FS.lookup_insert_ne _ _ hq, hq3 q hq,
            hq2 q hq]
          exact hpres q hq hqc
      · intro p hp
        have hp2 : p = tp := by
          simp at hp
          rcases hp with h | h | h
          · exact hs1tc p h
          · obtain ⟨pp, mm, hh⟩ := hev2 _ h
            simp at hh
          · obtain ⟨pp, uu, gg, hh⟩ := hev3 _ h
            simp at hh
        subst hp2
        constructor
        · simp
        · left
          simp
      · simp only [countTempTries_append]
        have hc5 : countTempTries [Ev.closeEv tp, Ev.removeEv tp] = 0 := by
          simp [countTempTries]
        omega
  · -- temp creation failed with an ordinary error
    have hs1no : ∀ ev ∈ s1.2, (∃ q, ev = Ev.statEv q) ∨ (∃ q, ev = Ev.mkdirEv q) ∨
        (∃ q u g, ev = Ev.chownEv q u g) ∨ (∃ q, ev = Ev.tempTryEv q) := by
      intro ev hev
      rcases htr ev hev with hk | ⟨d', he⟩ | ⟨tp', he, hres⟩
      · rcases hk with h | h | h
        · exact Or.inl h
        · exact Or.inr (Or.inl h)
        · exact Or.inr (Or.inr (Or.inl h))
      · exact Or.inr (Or.inr (Or.inr ⟨d', he⟩))
      · exact absurd hres (by simp)
    have heqB : c.writeFileBody name op (fs, []) = (.err ect, s1) := by
      rw [Config.writeFileBody, hct]
      simp only
      exact writeDeferRun_none _ _
    simp only [heqB]
    refine ⟨?_, ?_, ?_⟩
    · intro e' he' p hp
      rcases hs1no _ hp with ⟨q, h⟩ | ⟨q, h⟩ | ⟨q, u, g, h⟩ | ⟨q, h⟩ <;> simp at h
    · intro p hp
      rcases hs1no _ hp with ⟨q, h⟩ | ⟨q, h⟩ | ⟨q, u, g, h⟩ | ⟨q, h⟩ <;> simp at h
    · exact hcnt
  · -- temp creation escalated to a panic
    have hs1no : ∀ ev ∈ s1.2, (∃ q, ev = Ev.statEv q) ∨ (∃ q, ev = Ev.mkdirEv q) ∨
        (∃ q u g, ev = Ev.chownEv q u g) ∨ (∃ q, ev = Ev.tempTryEv q) := by
      intro ev hev
      rcases htr ev hev with hk | ⟨d', he⟩ | ⟨tp', he, hres⟩
      · rcases hk with h | h | h
        · exact Or.inl h
        · exact Or.inr (Or.inl h)
        · exact Or.inr (Or.inr (Or.inl h))
      · exact Or.inr (Or.inr (Or.inr ⟨d', he⟩))
      · exact absurd hres (by simp)
    have heqB : c.writeFileBody name op (fs, []) = (.panicked mct, s1) := by
      rw [Config.writeFileBody, hct]
      simp only
      exact writeDeferRun_none _ _
    simp only [heqB]
    refine ⟨?_, ?_, ?_⟩
    · intro e' he' p hp
      rcases hs1no _ hp with ⟨q, h⟩ | ⟨q, h⟩ | ⟨q, u, g, h⟩ | ⟨q, h⟩ <;> simp at h
    · intro p hp
      rcases hs1no _ hp with ⟨q, h⟩ | ⟨q, h⟩ | ⟨q, u, g, h⟩ | ⟨q, h⟩ <;> simp at h
    · exact hcnt

theorem niceC_isAbs {b : Path} (hb : niceC b) : isAbs b = false := by
  obtain ⟨h1, h2, h3, h4⟩ := hb
  rcases b with _ | ⟨bh, bt⟩
  · exact absurd rfl h1
  · have hbh : bh ≠ '/' := fun he => h4 (he ▸ List.mem_cons_self _ _)
    simp [isAbs, hbh]

theorem cleaned_filepathDirOf {q : Path} (h : Cleaned q) :
    Cleaned (filepathDir q) := by
  rcases cleaned_decomp h with rfl | ⟨cs, b, hcs, hb, rfl⟩
  · rw [filepathDir_root]
    exact cleaned_root
  · rw [filepathDir_absOf hcs hb]
    exact ⟨cs, hcs, rfl⟩

theorem isPrefixOf_length_le {l q : Path} (h : List.isPrefixOf l q = true) :
    l.length ≤ q.length :=
  (List.isPrefixOf_iff_prefix.mp h).length_le

/-- Once validation passes, `WriteFile` either rejects the name or runs the
temp-file body in a configuration whose directory is the parent of the
joined path (the recursion settles after at most one step). -/
theorem WriteFile_body_or_invalid (c : Config) {name : Path} (h1 : c.Directory ≠ [])
    (h2 : isAbs c.Directory = true) (h3 : isAbs name = false) (op : WriteOp) (s : St) :
    c.WriteFile name op s = (.err (.invalidName name), s) ∨
    ∃ (c2 : Config) (n2 : Path), c.WriteFile name op s = c2.writeFileBody n2 op s ∧
      c2.Directory ≠ [] ∧ isAbs c2.Directory = true ∧
      c.Directory.length ≤ c2.Directory.length ∧
      filepathJoin c2.Directory n2 = filepathJoin c.Directory name ∧
      filepathDir (filepathJoin c2.Directory n2) = c2.Directory := by
  have h20 : (2 : Nat) = 1 + 1 := rfl
  rw [Config.WriteFile, h20, writeFileAux_valid h1 h2 h3 1 op s]
  by_cases hterm : filepathDir (filepathJoin c.Directory name) = c.Directory
  · rw [if_pos hterm]
    right
    exact ⟨c, name, rfl, h1, h2, le_refl _, rfl, hterm⟩
  · rw [if_neg hterm]
    by_cases hpre : List.isPrefixOf (c.Directory ++ ['/'])
        (filepathDir (filepathJoin c.Directory name)) = false
    · rw [if_pos hpre]
      left
      rfl
    · rw [if_neg hpre]
      have hpre2 : List.isPrefixOf (c.Directory ++ ['/'])
          (filepathDir (filepathJoin c.Directory name)) = true := by
        cases hb : List.isPrefixOf (c.Directory ++ ['/'])
            (filepathDir (filepathJoin c.Directory name))
        · exact absurd hb hpre
        · rfl
      have hF : Cleaned (filepathJoin c.Directory name) :=
        cleaned_filepathJoin name h1 h2
      rcases cleaned_decomp hF with hroot | ⟨cs, b, hcs, hb, hFe⟩
      · exfalso
        rw [hroot, filepathDir_root] at hpre2
        have hlen := isPrefixOf_length_le hpre2
        exact h1 (by simpa [root] using hlen)
      · have hdir : filepathDir (filepathJoin c.Directory name) = absOf cs := by
          rw [hFe, filepathDir_absOf hcs hb]
        have hbase : filepathBase (filepathJoin c.Directory name) = b := by
          rw [hFe, filepathBase_absOf hcs hb]
        have hd2ne : (absOf cs : Path) ≠ [] := by simp [absOf]
        have hd2abs : isAbs (absOf cs) = true := cleaned_isAbs ⟨cs, hcs, rfl⟩
        have hb3 : isAbs b = false := niceC_isAbs hb
        have hjoin : filepathJoin (absOf cs) b = filepathJoin c.Directory name := by
          rw [filepathJoin_absOf hcs hb, hFe]
        have hcond : filepathDir (filepathJoin (absOf cs) b) = absOf cs := by
          rw [hjoin]
          exact hdir
        have hlen2 : c.Directory.length ≤ (absOf cs).length := by
          have hl := isPrefixOf_length_le hpre2
          rw [hdir] at hl
          simp at hl
          omega
        right
        refine ⟨{ c with Directory := absOf cs }, b, ?_, hd2ne, hd2abs, hlen2,
          hjoin, hcond⟩
        rw [hdir, hbase]
        have h10 : (1 : Nat) = 0 + 1 := rfl
        rw [h10, @writeFileAux_valid { c with Directory := absOf cs } hd2ne
          hd2abs b hb3 0 op s, if_pos hcond]

/-- Every `WriteFile` call on a validated configuration either returns with
the state untouched or runs the temp-file body in a terminal configuration. -/
theorem WriteFile_invalid_or_body (c : Config) {name : Path} (h1 : c.Directory ≠ [])
    (h2 : isAbs c.Directory = true) (op : WriteOp) (s : St) :
    (∃ r, c.WriteFile name op s = (r, s)) ∨
    ∃ (c2 : Config) (n2 : Path), c.WriteFile name op s = c2.writeFileBody n2 op s ∧
      c2.Directory ≠ [] ∧ isAbs c2.Directory = true ∧
      c.Directory.length ≤ c2.Directory.length ∧
      filepathJoin c2.Directory n2 = filepathJoin c.Directory name ∧
      filepathDir (filepathJoin c2.Directory n2) = c2.Directory := by
  by_cases h3 : isAbs name = true
  · left
    refine ⟨.err (.invalidName name), ?_⟩
    rw [Config.WriteFile, show (2 : Nat) = 1 + 1 from rfl]
    exact writeFileAux_absname h1 h2 h3 1 op s
  · have h3f : isAbs name = false := by
      cases hb : isAbs name
      · rfl
      · exact absurd hb h3
    rcases WriteFile_body_or_invalid c h1 h2 h3f op s with heq | hbody
    · left
      exact ⟨_, heq⟩
    · right
      exact hbody

/-- The `EnsureDirectory` tail on an entry that is a regular file: the mode
comparison always mismatches, the chmod happens, and the call still ends in
success. -/
theorem ensureDirModeOwner_file_ok (c : Config) {info : FSEntry} {s : St}
    (hlk : s.1.lookup c.Directory = some info) (hd : info.isDir = false) :
    (ensureDirModeOwner c info s).1 = .ok () ∧
    Ev.chmodEv c.Directory c.getDirectoryMode ∈ (ensureDirModeOwner c info s).2.2 := by
  rw [ensureDirModeOwner]
  have hmode : statMode info ≠ Nat.lor c.getDirectoryMode modeDir :=
    file_statMode_ne info hd _
  rw [if_pos hmode, osChmod_hit hlk]
  simp only
  have hlk2 : ((s.1.insert c.Directory { info with perm := c.getDirectoryMode },
      s.2 ++ [Ev.chmodEv c.Directory c.getDirectoryMode]) : St).1.lookup
      c.Directory = some { info with perm := c.getDirectoryMode } :=
    FS.lookup_insert_self _ _ _
  by_cases hf : c.EnsureDirectoryOwnership = true
  · rw [if_pos hf]
    by_cases hu : info.uid ≠ u32 c.DirectoryUID ∨ info.gid ≠ u32 c.DirectoryGID
    · rw [if_pos hu, osChown_hit hlk2]
      simp only
      exact ⟨by simp, by simp⟩
    · rw [if_neg hu]
      exact ⟨by simp, by simp⟩
  · rw [if_neg hf]
    exact ⟨by simp, by simp⟩

/-! ## Concrete fixtures used by the witnesses -/

/-- A filesystem holding the directories `/` and `/a`. -/
def wfsTwoDirs : FS :=
  ⟨[(['/'], ⟨true, 493, 0, 0, []⟩), (['/', 'a'], ⟨true, 493, 0, 0, []⟩)], 0, 0⟩

/-- A filesystem where `/a` is occupied by a regular file. -/
def wfsFileAt : FS :=
  ⟨[(['/'], ⟨true, 493, 0, 0, []⟩), (['/', 'a'], ⟨false, 420, 0, 0, ['o']⟩)], 0, 0⟩

/-- A filesystem holding only the root directory. -/
def wfsRootOnly : FS := ⟨[(['/'], ⟨true, 493, 0, 0, []⟩)], 0, 0⟩

/-- A filesystem where the directory `/a` has a child `/a/b`. -/
def wfsDirChild : FS :=
  ⟨[(['/', 'a'], ⟨true, 493, 0, 0, []⟩), (['/', 'a', '/', 'b'], ⟨false, 420, 0, 0, []⟩)], 0, 0⟩

/-- The temp path `WriteFile` creates inside `/a` over `wfsTwoDirs`. -/
def wTemp : Path := ['/', 'a', '/', '.', 't', 'e', 'm', 'p', 'x', 'x', 'x', 'x', '~']

/-! ## The claims -/

/-- C1: when the write callback was invoked (an op-call event appears in the
trace) and it returned an error, `WriteFile` returns exactly that error,
records no rename, leaves no entry at the temp path, and leaves the final
path `directory/name` with exactly its prior content (none if it did not
exist). -/
theorem C1_callback_error_aborts (c : Config) (name : Path) (op : WriteOp)
    (fs : FS) (e : GoErr) (hop : op.err = some e)
    (h1 : c.Directory ≠ []) (h2 : isAbs c.Directory = true) :
    ∀ p, Ev.opCallEv p ∈ (c.WriteFile name op (fs, [])).2.2 →
      (c.WriteFile name op (fs, [])).1 = .err e ∧
      (∀ a b, Ev.renameEv a b ∉ (c.WriteFile name op (fs, [])).2.2) ∧
      (c.WriteFile name op (fs, [])).2.1.lookup p = none ∧
      (c.WriteFile name op (fs, [])).2.1.lookup (filepathJoin c.Directory name) =
        fs.lookup (filepathJoin c.Directory name) := by
  intro p hp
  rcases WriteFile_invalid_or_body c h1 h2 op (fs, []) with ⟨r, heq⟩ |
    ⟨c2, n2, heq, h1b, h2b, hlen, hjoin, hterm⟩
  · rw [heq] at hp
    simp at hp
  · obtain ⟨hA, hB, hC⟩ := writeFileBody_inv c2 n2 op fs
    rw [← heq] at hA
    obtain ⟨hres, hnorn, hfr, hnone, hpresv⟩ := hA e hop p hp
    refine ⟨hres, hnorn, hnone, ?_⟩
    by_cases hFp : filepathJoin c.Directory name = p
    · rw [hFp, hnone, hfr]
    · have hcl : Cleaned (filepathJoin c.Directory name) :=
        cleaned_filepathJoin name h1 h2
      have hdir2 : filepathDir (filepathJoin c.Directory name) = c2.Directory := by
        rw [← hjoin]
        exact hterm
      have hloc : filepathJoin c.Directory name = root ∨
          c2.Directory.length < (filepathJoin c.Directory name).length := by
        by_cases hr : filepathJoin c.Directory name = root
        · exact Or.inl hr
        · right
          have habs : isAbs (filepathJoin c.Directory name) = true := cleaned_isAbs hcl
          have hlt := filepathDir_len_lt habs hr
          rw [hdir2] at hlt
          exact hlt
      exact hpresv _ hFp hloc

theorem C1_wit :
    (({ Directory := ['/', 'a'] } : Config).WriteFile ['f']
        ⟨some (.callbackErr 7), ['y']⟩ (wfsTwoDirs, [])).1 = .err (.callbackErr 7) ∧
    (({ Directory := ['/', 'a'] } : Config).WriteFile ['f']
        ⟨some (.callbackErr 7), ['y']⟩ (wfsTwoDirs, [])).2.1.lookup wTemp = none ∧
    (({ Directory := ['/', 'a'] } : Config).WriteFile ['f']
        ⟨some (.callbackErr 7), ['y']⟩ (wfsTwoDirs, [])).2.1.lookup
        (filepathJoin ['/', 'a'] ['f']) =
      wfsTwoDirs.lookup (filepathJoin ['/', 'a'] ['f']) := by
  obtain ⟨hres, hnorn, hnone, hprev⟩ :=
    C1_callback_error_aborts { Directory := ['/', 'a'] } ['f']
      ⟨some (.callbackErr 7), ['y']⟩ wfsTwoDirs (.callbackErr 7) rfl
      (by decide) (by decide) wTemp (by decide)
  exact ⟨hres, hnone, hprev⟩

/-- C2: with a valid directory, an absolute name is rejected with an
InvalidName error carrying the offending name, and the state (filesystem and
trace alike) is returned untouched. -/
theorem C2_absolute_name_rejected (c : Config) (h1 : c.Directory ≠ [])
    (h2 : isAbs c.Directory = true) {name : Path} (h3 : isAbs name = true)
    (op : WriteOp) (s : St) :
    c.WriteFile name op s = (.err (.invalidName name), s) := by
  rw [Config.WriteFile, show (2 : Nat) = 1 + 1 from rfl]
  exact writeFileAux_absname h1 h2 h3 1 op s

theorem C2_wit :
    ({ Directory := ['/', 'a'] } : Config).WriteFile ['/', 'b'] ⟨none, []⟩
      (wfsRootOnly, []) = (.err (.invalidName ['/', 'b']), (wfsRootOnly, [])) :=
  C2_absolute_name_rejected { Directory := ['/', 'a'] } (by decide) (by decide)
    (by decide) ⟨none, []⟩ (wfsRootOnly, [])

/-- C3: a relative name whose joined-and-cleaned parent is neither the
configured directory nor a strict descendant of it (the parent lacks the
prefix `Directory ++ "/"`) is rejected with InvalidName, state untouched. -/
theorem C3_escaping_name_rejected (c : Config) (h1 : c.Directory ≠ [])
    (h2 : isAbs c.Directory = true) {name : Path} (h3 : isAbs name = false)
    (hd : filepathDir (filepathJoin c.Directory name) ≠ c.Directory)
    (hpre2 : List.isPrefixOf (c.Directory ++ ['/'])
      (filepathDir (filepathJoin c.Directory name)) = false)
    (op : WriteOp) (s : St) :
    c.WriteFile name op s = (.err (.invalidName name), s) := by
  rw [Config.WriteFile, show (2 : Nat) = 1 + 1 from rfl,
    writeFileAux_valid h1 h2 h3 1 op s, if_neg hd, if_pos hpre2]

theorem C3_wit :
    ({ Directory := ['/', 'a', '/', 'b'] } : Config).WriteFile ['.', '.', '/', 'x']
      ⟨none, []⟩ (wfsRootOnly, []) =
      (.err (.invalidName ['.', '.', '/', 'x']), (wfsRootOnly, [])) :=
  C3_escaping_name_rejected { Directory := ['/', 'a', '/', 'b'] } (by decide)
    (by decide) (by decide) (by decide) (by decide) ⟨none, []⟩ (wfsRootOnly, [])

/-- C4 (counterexample): running `EnsureDirectory` twice on a valid absolute
directory path occupied by a regular file succeeds both times, yet the
second call still performs a chmod: the second call is not mutation-free, so
the claim as stated fails. -/
theorem C4_cex :
    (({ Directory := ['/', 'a'] } : Config).EnsureDirectory (wfsFileAt, [])).1 =
      .ok () ∧
    Ev.chmodEv ['/', 'a'] 493 ∈
      (({ Directory := ['/', 'a'] } : Config).EnsureDirectory
        ((({ Directory := ['/', 'a'] } : Config).EnsureDirectory
          (wfsFileAt, [])).2.1, [])).2.2 := by
  decide

/-- C4 (amended): when the first `EnsureDirectory` call succeeds and the
entry it leaves at the directory path is an actual directory, the second
call performs only a stat — no mkdir, chmod or chown, and no filesystem
change — and returns success. -/
theorem C4_idempotent_on_directory (c : Config) (fs fs1 : FS) (tr1 : List Ev)
    (h : c.EnsureDirectory (fs, []) = (.ok (), (fs1, tr1)))
    {en : FSEntry} (hlk : fs1.lookup c.Directory = some en)
    (hd : en.isDir = true) :
    c.EnsureDirectory (fs1, []) = (.ok (), (fs1, [Ev.statEv c.Directory])) := by
  obtain ⟨h1, h2⟩ := EnsureDirectory_ok_valid h
  obtain ⟨hmode, hown⟩ := EnsureDirectory_ok_inv h hlk hd
  exact EnsureDirectory_second_clean h1 h2 hlk hmode hown

theorem C4_wit :
    ({ Directory := ['/', 'a'] } : Config).EnsureDirectory
        ((({ Directory := ['/', 'a'] } : Config).EnsureDirectory
          (wfsRootOnly, [])).2.1, []) =
      (.ok (), ((({ Directory := ['/', 'a'] } : Config).EnsureDirectory
        (wfsRootOnly, [])).2.1, [Ev.statEv ['/', 'a']])) := by
  have h0 : ({ Directory := ['/', 'a'] } : Config).EnsureDirectory (wfsRootOnly, []) =
      (.ok (), ((({ Directory := ['/', 'a'] } : Config).EnsureDirectory
          (wfsRootOnly, [])).2.1,
        (({ Directory := ['/', 'a'] } : Config).EnsureDirectory
          (wfsRootOnly, [])).2.2)) := by
    decide
  exact @C4_idempotent_on_directory { Directory := ['/', 'a'] } wfsRootOnly _ _ h0
    ⟨true, 493, 0, 0, []⟩ (by decide) (by decide)

/-- C5: the recursion of `EnsureDirectoryIfNotExist` terminates: the root is
an immediate success base case, a recursive step swaps the directory for its
strictly shorter parent, a path whose parent equals itself makes
`parentConfig` fail with the fatal "wtf" message instead of looping, and no
run ever exhausts the model fuel. -/
theorem C5_recursion_terminates (c : Config) :
    (∀ s, c.Directory = root → c.EnsureDirectoryIfNotExist s = (.ok (), s)) ∧
    (c.Directory ≠ [] → isAbs c.Directory = true →
      filepathDir c.Directory ≠ c.Directory →
      c.parentConfig = .ok { c with Directory := filepathDir c.Directory } ∧
      (filepathDir c.Directory).length < c.Directory.length) ∧
    (c.Directory ≠ [] → isAbs c.Directory = true →
      filepathDir c.Directory = c.Directory → c.parentConfig = .error wtfMsg) ∧
    (∀ s, (c.EnsureDirectoryIfNotExist s).1 ≠ .panicked fuelMsg) := by
  refine ⟨?_, ?_, ?_, ?_⟩
  · intro s h
    rw [Config.EnsureDirectoryIfNotExist]
    exact ensureAux_root _ _ _ h
  · intro h1 h2 h3
    refine ⟨parentConfig_ok h1 h2 h3, ?_⟩
    have hroot : c.Directory ≠ root := by
      intro he
      exact h3 (by rw [he]; exact filepathDir_root)
    exact filepathDir_len_lt h2 hroot
  · exact fun h1 h2 h3 => parentConfig_wtf h1 h2 h3
  · intro s
    rw [Config.EnsureDirectoryIfNotExist]
    exact ensureAux_no_fuel_panic _ _ _ (by omega)

theorem C5_wit :
    ({ Directory := ['/'] } : Config).EnsureDirectoryIfNotExist (wfsRootOnly, []) =
      (.ok (), (wfsRootOnly, [])) ∧
    ({ Directory := ['/', 'a', '/', 'b'] } : Config).parentConfig =
      .ok { Directory := ['/', 'a'] } ∧
    (filepathDir ['/', 'a', '/', 'b']).length < 4 ∧
    ({ Directory := ['/'] } : Config).parentConfig = .error wtfMsg ∧
    (({ Directory := ['/', 'a', '/', 'b'] } : Config).EnsureDirectoryIfNotExist
      (wfsRootOnly, [])).1 ≠ .panicked fuelMsg := by
  obtain ⟨hr1, _, hw1, _⟩ := C5_recursion_terminates { Directory := ['/'] }
  obtain ⟨_, hs2, _, hf2⟩ := C5_recursion_terminates { Directory := ['/', 'a', '/', 'b'] }
  obtain ⟨hpc, hlt⟩ := hs2 (by decide) (by decide) (by decide)
  exact ⟨hr1 (wfsRootOnly, []) rfl, hpc, hlt,
    hw1 (by decide) (by decide) (by decide), hf2 (wfsRootOnly, [])⟩

/-- C6: an empty or non-absolute directory makes each of `EnsureDirectory`,
`EnsureDirectoryIfNotExist` and `WriteFile` abort with the corresponding
fatal panic rather than return an ordinary error. -/
theorem C6_invalid_directory_panics (c : Config) (s : St) (name : Path)
    (op : WriteOp) :
    (c.Directory = [] →
      (c.EnsureDirectory s).1 = .panicked dirEmptyMsg ∧
      (c.EnsureDirectoryIfNotExist s).1 = .panicked dirEmptyMsg ∧
      (c.WriteFile name op s).1 = .panicked dirEmptyMsg) ∧
    (isAbs c.Directory = false → c.Directory ≠ [] →
      (c.EnsureDirectory s).1 = .panicked dirNotAbsMsg ∧
      (c.EnsureDirectoryIfNotExist s).1 = .panicked dirNotAbsMsg ∧
      (c.WriteFile name op s).1 = .panicked dirNotAbsMsg) := by
  constructor
  · intro he
    refine ⟨?_, ?_, ?_⟩
    · rw [Config.EnsureDirectory, if_pos he]
    · rw [Config.EnsureDirectoryIfNotExist, ensureDirIfNotExistAux, if_pos he]
    · rw [Config.WriteFile, show (2 : Nat) = 1 + 1 from rfl, Config.writeFileAux,
        if_pos he]
  · intro hab he
    refine ⟨?_, ?_, ?_⟩
    · rw [Config.EnsureDirectory, if_neg he, if_pos hab]
    · rw [Config.EnsureDirectoryIfNotExist, ensureDirIfNotExistAux, if_neg he,
        if_pos hab]
    · rw [Config.WriteFile, show (2 : Nat) = 1 + 1 from rfl, Config.writeFileAux,
        if_neg he, if_pos hab]

theorem C6_wit :
    (({ Directory := ['a'] } : Config).EnsureDirectory (wfsRootOnly, [])).1 =
      .panicked dirNotAbsMsg ∧
    (({ Directory := ['a'] } : Config).EnsureDirectoryIfNotExist
      (wfsRootOnly, [])).1 = .panicked dirNotAbsMsg ∧
    (({ Directory := ['a'] } : Config).WriteFile ['f'] ⟨none, []⟩
      (wfsRootOnly, [])).1 = .panicked dirNotAbsMsg := by
  obtain ⟨h0, hA⟩ := C6_invalid_directory_panics { Directory := ['a'] }
    (wfsRootOnly, []) ['f'] ⟨none, []⟩
  exact hA (by decide) (by decide)

/-- C7: every created temp file is closed, and either removed or renamed
away, on every exit path of `WriteFile`; in the deferred cleanup a missing
temp file is benign (the operation's own result is kept), while a removal
failure that is not a not-exist error escalates to a panic. -/
theorem C7_cleanup_on_every_path (c : Config) (name : Path) (op : WriteOp)
    (fs : FS) (h1 : c.Directory ≠ []) (h2 : isAbs c.Directory = true) :
    (∀ p, Ev.tempCreateEv p ∈ (c.WriteFile name op (fs, [])).2.2 →
      Ev.closeEv p ∈ (c.WriteFile name op (fs, [])).2.2 ∧
      (Ev.removeEv p ∈ (c.WriteFile name op (fs, [])).2.2 ∨
        ∃ b, Ev.renameEv p b ∈ (c.WriteFile name op (fs, [])).2.2)) ∧
    (∀ res b s, b.tmpName ≠ [] → s.1.lookup b.tmpName = none →
      (writeDeferRun res b s).1 = res) ∧
    (∀ res b s e, b.tmpName ≠ [] → s.1.lookup b.tmpName = some e →
      e.isDir = true → s.1.hasChild b.tmpName = true →
      (writeDeferRun res b s).1 = .panicked removePanicMsg) := by
  refine ⟨?_, fun res b s h hl => writeDeferRun_benign h hl,
    fun res b s e h hl hd hch => writeDeferRun_escalate h hl hd hch⟩
  intro p hp
  rcases WriteFile_invalid_or_body c h1 h2 op (fs, []) with ⟨r, heq⟩ |
    ⟨c2, n2, heq, _, _, _, _, _⟩
  · rw [heq] at hp
    simp at hp
  · obtain ⟨_, hB, _⟩ := writeFileBody_inv c2 n2 op fs
    rw [← heq] at hB
    exact hB p hp

theorem C7_wit :
    Ev.closeEv wTemp ∈ (({ Directory := ['/', 'a'] } : Config).WriteFile ['f']
      ⟨none, ['h', 'i']⟩ (wfsTwoDirs, [])).2.2 ∧
    (writeDeferRun (.ok ()) ⟨none, ['/', 'x']⟩ (wfsRootOnly, [])).1 = .ok () ∧
    (writeDeferRun (.ok ()) ⟨none, ['/', 'a']⟩ (wfsDirChild, [])).1 =
      .panicked removePanicMsg := by
  obtain ⟨hB, hben, hesc⟩ := C7_cleanup_on_every_path { Directory := ['/', 'a'] }
    ['f'] ⟨none, ['h', 'i']⟩ wfsTwoDirs (by decide) (by decide)
  exact ⟨(hB wTemp (by decide)).1,
    hben (.ok ()) ⟨none, ['/', 'x']⟩ (wfsRootOnly, []) (by decide) (by decide),
    hesc (.ok ()) ⟨none, ['/', 'a']⟩ (wfsDirChild, []) ⟨true, 493, 0, 0, []⟩
      (by decide) (by decide) (by decide) (by decide)⟩

/-- C8: a successful first temp-file creation is final; a first failure that
is not a not-exist error is returned as-is; a not-exist failure triggers
`EnsureDirectoryIfNotExist` and exactly one retry whose result (success or
error) is final; and a full `WriteFile` run records at most two temp-file
creation attempts. -/
theorem C8_single_retry (c : Config) :
    (∀ s s2 p, ioutilTempFile c.Directory c.getTempPattern s = (.ok p, s2) →
      c.createTemp s = (.ok p, s2)) ∧
    (∀ s s2 e, ioutilTempFile c.Directory c.getTempPattern s = (.error e, s2) →
      isNotExistE e = false → c.createTemp s = (.err e, s2)) ∧
    (∀ s s2 s3 s4 e p, ioutilTempFile c.Directory c.getTempPattern s = (.error e, s2) →
      isNotExistE e = true → c.EnsureDirectoryIfNotExist s2 = (.ok (), s3) →
      ioutilTempFile c.Directory c.getTempPattern s3 = (.ok p, s4) →
      c.createTemp s = (.ok p, s4)) ∧
    (∀ s s2 s3 s4 e e2, ioutilTempFile c.Directory c.getTempPattern s = (.error e, s2) →
      isNotExistE e = true → c.EnsureDirectoryIfNotExist s2 = (.ok (), s3) →
      ioutilTempFile c.Directory c.getTempPattern s3 = (.error e2, s4) →
      c.createTemp s = (.err e2, s4)) ∧
    (∀ name op fs, c.Directory ≠ [] → isAbs c.Directory = true →
      countTempTries (c.WriteFile name op (fs, [])).2.2 ≤ 2) := by
  refine ⟨fun s s2 p h => createTemp_first_ok h,
    fun s s2 e h hne => createTemp_first_err h hne,
    fun s s2 s3 s4 e p h hne hens h2 => createTemp_retry_ok h hne hens h2,
    fun s s2 s3 s4 e e2 h hne hens h2 => createTemp_retry_err h hne hens h2, ?_⟩
  intro name op fs h1 h2
  rcases WriteFile_invalid_or_body c h1 h2 op (fs, []) with ⟨r, heq⟩ |
    ⟨c2, n2, heq, _, _, _, _, _⟩
  · rw [heq]
    simp [countTempTries]
  · obtain ⟨_, _, hC⟩ := writeFileBody_inv c2 n2 op fs
    rw [← heq] at hC
    exact hC

theorem C8_wit :
    ({ Directory := ['/', 'a'] } : Config).createTemp (wfsTwoDirs, []) =
      (.ok (filepathJoin ['/', 'a']
        (tempNameOf ({ Directory := ['/', 'a'] } : Config).getTempPattern
          (freshLen wfsTwoDirs))),
       (({ Directory := ['/', 'a'] } : Config).createTemp (wfsTwoDirs, [])).2) ∧
    countTempTries (({ Directory := ['/', 'a'] } : Config).WriteFile ['f']
      ⟨none, ['h', 'i']⟩ (wfsTwoDirs, [])).2.2 ≤ 2 := by
  obtain ⟨hfo, _, _, _, hcnt⟩ := C8_single_retry { Directory := ['/', 'a'] }
  exact ⟨hfo (wfsTwoDirs, []) _ _ rfl,
    hcnt ['f'] ⟨none, ['h', 'i']⟩ wfsTwoDirs (by decide) (by decide)⟩

/-- C9: a valid directory path occupied by a regular file is not reported as
a not-a-directory failure: `EnsureDirectory` stats it, the mode comparison
against the configured mode or-ed with the directory bit necessarily
mismatches, a chmod of the file is performed and the call succeeds; and
`EnsureDirectoryIfNotExist` succeeds on any existing path. -/
theorem C9_file_entry_tolerated (c : Config) (fs : FS) (h1 : c.Directory ≠ [])
    (h2 : isAbs c.Directory = true) {en : FSEntry}
    (hlk : fs.lookup c.Directory = some en) (hd : en.isDir = false) :
    ((c.EnsureDirectory (fs, [])).1 = .ok () ∧
      Ev.chmodEv c.Directory c.getDirectoryMode ∈
        (c.EnsureDirectory (fs, [])).2.2) ∧
    (c.EnsureDirectoryIfNotExist (fs, [])).1 = .ok () := by
  have hlk0 : ((fs, []) : St).1.lookup c.Directory = some en := hlk
  have heq := EnsureDirectory_stat_hit h1 h2 hlk0
  have hlk1 : ((((fs, []) : St).1, ((fs, []) : St).2 ++ [Ev.statEv c.Directory]) :
      St).1.lookup c.Directory = some en := hlk
  obtain ⟨hok, hmem⟩ := ensureDirModeOwner_file_ok c hlk1 hd
  constructor
  · exact ⟨by rw [heq]; exact hok, by rw [heq]; exact hmem⟩
  · rw [Config.EnsureDirectoryIfNotExist, ensureDirIfNotExistAux, if_neg h1,
      if_neg (by simp [h2])]
    by_cases hr : c.Directory = root
    · rw [if_pos hr]
    · rw [if_neg hr, osStat_hit hlk0]

theorem C9_wit :
    ((({ Directory := ['/', 'a'] } : Config).EnsureDirectory (wfsFileAt, [])).1 =
        .ok () ∧
      Ev.chmodEv ['/', 'a'] 493 ∈
        (({ Directory := ['/', 'a'] } : Config).EnsureDirectory
          (wfsFileAt, [])).2.2) ∧
    (({ Directory := ['/', 'a'] } : Config).EnsureDirectoryIfNotExist
      (wfsFileAt, [])).1 = .ok () :=
  @C9_file_entry_tolerated { Directory := ['/', 'a'] } wfsFileAt (by decide)
    (by decide) ⟨false, 420, 0, 0, ['o']⟩ (by decide) (by decide)

/-- C10: with the root as configured directory, any relative name that
resolves to a parent other than the root is rejected: the descendant check
tests for the prefix `Directory ++ "/"`, which for the root is `"//"` and is
never a prefix of a cleaned path, so `WriteFile` returns InvalidName. -/
theorem C10_root_config_subdir_rejected (c : Config) (hroot : c.Directory = root)
    {name : Path} (h3 : isAbs name = false)
    (hd : filepathDir (filepathJoin c.Directory name) ≠ c.Directory)
    (op : WriteOp) (s : St) :
    List.isPrefixOf (c.Directory ++ ['/'])
      (filepathDir (filepathJoin c.Directory name)) = false ∧
    c.WriteFile name op s = (.err (.invalidName name), s) := by
  have h1 : c.Directory ≠ [] := by
    rw [hroot]
    decide
  have h2 : isAbs c.Directory = true := by
    rw [hroot]
    decide
  have hcl : Cleaned (filepathJoin c.Directory name) := cleaned_filepathJoin name h1 h2
  have hdircl : Cleaned (filepathDir (filepathJoin c.Directory name)) :=
    cleaned_filepathDirOf hcl
  have hds : (c.Directory ++ ['/'] : Path) = ['/', '/'] := by
    rw [hroot]
    decide
  have hpre2 : List.isPrefixOf (c.Directory ++ ['/'])
      (filepathDir (filepathJoin c.Directory name)) = false := by
    rw [hds]
    exact cleaned_no_dslash hdircl
  refine ⟨hpre2, ?_⟩
  rw [Config.WriteFile, show (2 : Nat) = 1 + 1 from rfl,
    writeFileAux_valid h1 h2 h3 1 op s, if_neg hd, if_pos hpre2]

theorem C10_wit :
    List.isPrefixOf (['/'] ++ ['/'])
      (filepathDir (filepathJoin ['/'] ['s', 'u', 'b', '/', 'f'])) = false ∧
    ({ Directory := ['/'] } : Config).WriteFile ['s', 'u', 'b', '/', 'f']
      ⟨none, []⟩ (wfsRootOnly, []) =
      (.err (.invalidName ['s', 'u', 'b', '/', 'f']), (wfsRootOnly, [])) :=
  C10_root_config_subdir_rejected { Directory := ['/'] } rfl (by decide)
    (by decide) ⟨none, []⟩ (wfsRootOnly, [])

end Writefile
